import Mathlib

/-!
Verification development for the swarmsim-py repository.

The two source files, single_robot_behaviors.py and swarm_behaviors.py, are
shallowly embedded below.  Python floats are modelled as exact rationals.
The transcendental library calls (math.cos, math.sin, math.atan2, math.pi)
are abstracted into a record of rational-valued functions that every
definition takes as a parameter: the control flow of the program never
inspects their internals, so every theorem quantifies over that record
unless a concrete instance is needed for a scenario.  Calls of the form
math.sqrt(dsq) < c, with c a nonnegative constant, are embedded as the
equivalent comparison dsq < c^2, so that all data stays rational and
computable.  Calls to the random module are modelled as explicitly injected
per-tick values, as the specification itself prescribes for testability.
-/

set_option maxRecDepth 10000

namespace SwarmSim

/-- Record abstracting the transcendental functions used by the sources:
math.cos, math.sin, math.atan2 and the constant math.pi. -/
structure Trig where
  cos : ℚ → ℚ
  sin : ℚ → ℚ
  atan2 : ℚ → ℚ → ℚ
  pi : ℚ

/-- Python min over a nonempty list (the sources only apply it to the
fixed-length sensor list); the empty case is given an irrelevant default. -/
def pymin : List ℚ → ℚ
  | [] => 0
  | x :: xs => xs.foldl min x

/-- Python sum of a list of floats. -/
def pysum (l : List ℚ) : ℚ := l.foldl (· + ·) 0

/-- Embedding of max(lo, min(hi, x)), the clamping idiom of both sources. -/
def clampQ (lo hi x : ℚ) : ℚ := max lo (min hi x)

/-- Python int() truncation toward zero, used for the vacuum trail points. -/
def pyInt (q : ℚ) : ℤ := if 0 ≤ q then q.floor else -(-q).floor

/-- Simple concrete trig instance for witnesses that do not depend on the
trig values. -/
def flatTrig : Trig := { cos := fun _ => 1, sin := fun _ => 0, atan2 := fun _ _ => 0, pi := 3 }

namespace Single

def SCREEN_WIDTH : ℚ := 800
def SCREEN_HEIGHT : ℚ := 600
def ROBOT_SIZE : ℚ := 20
def SENSOR_RANGE : ℕ := 100

/-- Embedding of pygame.Rect restricted to what the source uses:
the four numbers and the collidepoint test. -/
structure Rect where
  left : ℚ
  top : ℚ
  width : ℚ
  height : ℚ
deriving DecidableEq

/-- Rect.collidepoint(x, y): the point lies inside the rectangle
(left and top edges inclusive, right and bottom exclusive). -/
def Rect.collidepoint (w : Rect) (px py : ℚ) : Bool :=
  decide (w.left ≤ px) && decide (px < w.left + w.width) &&
  decide (w.top ≤ py) && decide (py < w.top + w.height)

/-- Closed enumeration for the wall_follow_state string tag of Robot. -/
inductive WFState
  | searching
  | following
deriving DecidableEq

/-- Embedding of the Robot class state (single_robot_behaviors.py).
The sensor_angles list is a global constant below; wall_distance is the
field initialised to 40. -/
structure Robot where
  x : ℚ
  y : ℚ
  angle : ℚ
  speed : ℚ
  sensor_readings : List ℚ
  trail : List (ℤ × ℤ)
  wall_follow_state : WFState
  wall_distance : ℚ
deriving DecidableEq

def sensor_angles : List ℚ := [-45, -30, -15, 0, 15, 30, 45]

/-- math.radians(deg) = deg * pi / 180, with pi taken from the Trig record. -/
def radians (tr : Trig) (deg : ℚ) : ℚ := deg * tr.pi / 180

/-- Inner wall loop of sense_walls: does any wall contain the ray point. -/
def hitsWall (walls : List Rect) (px py : ℚ) : Bool :=
  walls.any (fun w => w.collidepoint px py)

/-- Ray march of sense_walls for one sensor direction th: the first
distance d in range(1, SENSOR_RANGE) whose ray point hits a wall, else
SENSOR_RANGE. -/
def raycast (tr : Trig) (walls : List Rect) (x y th : ℚ) : ℚ :=
  match (List.range' 1 (SENSOR_RANGE - 1)).find?
      (fun (d : ℕ) => hitsWall walls (x + (d : ℚ) * tr.cos th) (y + (d : ℚ) * tr.sin th)) with
  | some d => (d : ℚ)
  | none => (SENSOR_RANGE : ℚ)

/-- Robot.sense_walls: recompute every sensor reading by ray casting at
angle + radians(offset) for each fixed offset. -/
def sense_walls (tr : Trig) (walls : List Rect) (r : Robot) : Robot :=
  { r with sensor_readings :=
      sensor_angles.map (fun off => raycast tr walls r.x r.y (r.angle + radians tr off)) }

/-- Robot.collision_avoidance.  The jitter argument is the injected value of
random.uniform(-0.02, 0.02). -/
def collision_avoidance (tr : Trig) (jitter : ℚ) (r : Robot) : Robot :=
  let front_sensors := (r.sensor_readings.drop 2).take 3
  let r1 :=
    if pymin front_sensors < 40 then
      let left_avg := pysum (r.sensor_readings.take 3) / 3
      let right_avg := pysum (r.sensor_readings.drop 4) / 3
      if left_avg < right_avg then { r with angle := r.angle + 0.1 }
      else { r with angle := r.angle - 0.1 }
    else
      { r with angle := r.angle + jitter }
  { r1 with
      x := r1.x + r1.speed * tr.cos r1.angle
      y := r1.y + r1.speed * tr.sin r1.angle }

/-- Robot.wall_follower.  The source also reads sensor_readings[4] into an
unused local variable right_front_distance; being unused it is omitted.
The jitter argument is the injected random.uniform(-0.05, 0.05). -/
def wall_follower (tr : Trig) (jitter : ℚ) (r : Robot) : Robot :=
  let front_distance := r.sensor_readings.getD 3 0
  let right_distance := r.sensor_readings.getD 5 0
  match r.wall_follow_state with
  | .searching =>
      if pymin r.sensor_readings < 50 then
        { r with wall_follow_state := .following }
      else
        let r1 := { r with angle := r.angle + jitter }
        { r1 with
            x := r1.x + r1.speed * tr.cos r1.angle
            y := r1.y + r1.speed * tr.sin r1.angle }
  | .following =>
      if front_distance < 30 then { r with angle := r.angle - 0.1 }
      else if r.wall_distance + 10 < right_distance then { r with angle := r.angle + 0.05 }
      else if right_distance < r.wall_distance - 10 then { r with angle := r.angle - 0.05 }
      else
        { r with
            x := r.x + r.speed * tr.cos r.angle
            y := r.y + r.speed * tr.sin r.angle }

/-- Injected random draws consumed by Robot.vacuum_cleaner: coin is the
value of random.random() and perturb that of random.uniform(-pi/4, pi/4). -/
structure VRand where
  coin : ℚ
  perturb : ℚ
deriving DecidableEq

/-- Robot.vacuum_cleaner: append the integer position to the trail, evict
the oldest point past 500 entries, then either quarter-turn on a close
front obstacle or add the spiral increment (which grows with the trail
length), with a 5 percent chance of an extra random perturbation; finally
advance along the updated heading. -/
def vacuum_cleaner (tr : Trig) (rnd : VRand) (r : Robot) : Robot :=
  let trail1 := r.trail ++ [(pyInt r.x, pyInt r.y)]
  let trail2 := if 500 < trail1.length then trail1.drop 1 else trail1
  let front_distance := r.sensor_readings.getD 3 0
  let r1 :=
    if front_distance < 30 then
      { r with trail := trail2, angle := r.angle + tr.pi / 2 }
    else
      let spiral_factor := (trail2.length : ℚ) * 0.0001
      let a1 := r.angle + 0.02 + spiral_factor
      let a2 := if rnd.coin < 0.05 then a1 + rnd.perturb else a1
      { r with trail := trail2, angle := a2 }
  { r1 with
      x := r1.x + r1.speed * tr.cos r1.angle
      y := r1.y + r1.speed * tr.sin r1.angle }

/-- Closed enumeration for the externally selected single-robot mode. -/
inductive SMode
  | collision_avoidance
  | wall_follower
  | vacuum_cleaner
deriving DecidableEq

/-- Injected random draws for one single-robot tick. -/
structure SRand where
  jitter : ℚ
  coin : ℚ
  perturb : ℚ

/-- Simulation.update: sense, dispatch the selected behavior, then clamp
the position into [ROBOT_SIZE, dimension - ROBOT_SIZE] on both axes. -/
def simUpdate (tr : Trig) (mode : SMode) (rnd : SRand) (walls : List Rect) (r : Robot) : Robot :=
  let rs := sense_walls tr walls r
  let rb :=
    match mode with
    | .collision_avoidance => collision_avoidance tr rnd.jitter rs
    | .wall_follower => wall_follower tr rnd.jitter rs
    | .vacuum_cleaner => vacuum_cleaner tr ⟨rnd.coin, rnd.perturb⟩ rs
  { rb with
      x := clampQ ROBOT_SIZE (SCREEN_WIDTH - ROBOT_SIZE) rb.x
      y := clampQ ROBOT_SIZE (SCREEN_HEIGHT - ROBOT_SIZE) rb.y }

/-- Trace of repeated wall-follower ticks in which the sensed readings of
tick t are injected as the function rs (each tick of Simulation.update
first overwrites the readings by sensing, then runs the behavior; the
injection quantifies over every possible sensing outcome) and js t is the
jitter drawn at tick t. -/
def wfRun (tr : Trig) (rs : ℕ → List ℚ) (js : ℕ → ℚ) (r0 : Robot) : ℕ → Robot
  | 0 => r0
  | t + 1 => wall_follower tr (js t) { wfRun tr rs js r0 t with sensor_readings := rs t }

/-- Concrete trig instance for the facing-a-wall scenario of claim C6.
The value of pi is taken as 3, so the seven ray directions of a robot at
heading 0 are the rationals 0, 1/4, 1/2 and 3/4 up to sign, and cos and
sin table the true cosine and sine of the corresponding degree offsets to
four decimal places. -/
def ctrig6 : Trig :=
  { pi := 3
    cos := fun a =>
      if a = 0 then 1
      else if a = 1 / 4 ∨ a = -(1 / 4) then 9659 / 10000
      else if a = 1 / 2 ∨ a = -(1 / 2) then 8660 / 10000
      else if a = 3 / 4 ∨ a = -(3 / 4) then 7071 / 10000
      else 0
    sin := fun a =>
      if a = 0 then 0
      else if a = 1 / 4 then 2588 / 10000
      else if a = -(1 / 4) then -(2588 / 10000)
      else if a = 1 / 2 then 1 / 2
      else if a = -(1 / 2) then -(1 / 2)
      else if a = 3 / 4 then 7071 / 10000
      else if a = -(3 / 4) then -(7071 / 10000)
      else 0
    atan2 := fun _ _ => 0 }

/-- Wall set for the scenario of claim C6: one wall whose near face is 10
units in front of the scenario robot. -/
def walls6 : List Rect := [⟨310, 0, 200, 600⟩]

/-- Robot for the scenario of claim C6: at (300, 300), heading 0, facing
the near face of walls6 ten units away. -/
def robot6 : Robot := ⟨300, 300, 0, 2, [100, 100, 100, 100, 100, 100, 100], [], .searching, 40⟩

/-- Robot with an empty trail for the counterexample of claim C8. -/
def robotT0 : Robot := ⟨0, 0, 0, 1, [100, 100, 100, 100, 100, 100, 100], [], .searching, 40⟩

/-- Robot identical to robotT0 except for a trail of 100 points. -/
def robotT1 : Robot :=
  ⟨0, 0, 0, 1, [100, 100, 100, 100, 100, 100, 100], List.replicate 100 (0, 0), .searching, 40⟩

/-- Wall set for the claim C5 witness: a single wall first hit at
distance 2 by a ray from the origin along the positive x axis. -/
def wallsW : List Rect := [⟨2, -5, 10, 10⟩]

end Single

namespace Swarm

def SCREEN_WIDTH : ℚ := 1000
def SCREEN_HEIGHT : ℚ := 800
def ROBOT_SIZE : ℚ := 10
def WAIT_TIME : ℤ := 120

/-- Closed enumeration for the state string tag of SwarmRobot. -/
inductive AState
  | moving
  | stopped
  | leaving
deriving DecidableEq

/-- One entry of a SwarmRobot neighbor list.  The source stores the live
robot object, its distance and its bearing; the embedding stores the
stable id of the neighbor (resolved against the roster where the source
dereferences the object), the squared distance (see the header note on
sqrt) and the bearing. -/
structure Nbr where
  nid : ℕ
  distSq : ℚ
  angle : ℚ
deriving DecidableEq

/-- Embedding of the SwarmRobot class state (swarm_behaviors.py).  The
field leave_probability is initialised to 0.01 by the constructor and
never read by any behavior; it is kept for fidelity. -/
structure SwarmRobot where
  x : ℚ
  y : ℚ
  id : ℕ
  angle : ℚ
  speed : ℚ
  max_speed : ℚ
  state : AState
  wait_timer : ℤ
  neighbors : List Nbr
  cluster_size : ℕ
  leave_probability : ℚ
deriving DecidableEq

/-- Squared Euclidean distance between two robots. -/
def posDistSq (a b : SwarmRobot) : ℚ := (a.x - b.x) ^ 2 + (a.y - b.y) ^ 2

/-- Stable insertion of a neighbor entry into a list sorted ascending by
distance; an earlier entry goes before later entries with an equal key,
matching the stability of the Python list sort. -/
def insertNbr (n : Nbr) : List Nbr → List Nbr
  | [] => [n]
  | m :: ms => if n.distSq ≤ m.distSq then n :: m :: ms else m :: insertNbr n ms

/-- Stable sort of a neighbor list ascending by distance. -/
def sortNbrs : List Nbr → List Nbr
  | [] => []
  | n :: ns => insertNbr n (sortNbrs ns)

/-- Neighbor list that SwarmRobot.sense_neighbors computes for one robot
from the roster snapshot: every other robot at distance below
SENSOR_RANGE = 50 (squared: 2500), with squared distance and bearing,
sorted ascending by distance. -/
def nbrListOf (tr : Trig) (roster : List SwarmRobot) (self : SwarmRobot) : List Nbr :=
  sortNbrs (roster.filterMap (fun r =>
    if r.id ≠ self.id then
      let dsq := posDistSq self r
      if dsq < 2500 then
        some ⟨r.id, dsq, tr.atan2 (r.y - self.y) (r.x - self.x)⟩
      else none
    else none))

/-- SwarmRobot.sense_neighbors: overwrite the neighbors field.  Nothing
else of the robot changes. -/
def sense_neighbors (tr : Trig) (roster : List SwarmRobot) (self : SwarmRobot) : SwarmRobot :=
  { self with neighbors := nbrListOf tr roster self }

/-- Injected random draws for one swarm-robot tick: jitter stands for the
random.uniform heading jitters, coin and coin2 for the random.random()
draws of the stopped and leaving branches. -/
structure WRand where
  jitter : ℚ
  coin : ℚ
  coin2 : ℚ

/-- Test shared by the behaviors: the neighbor list is nonempty and its
nearest entry is below AGGREGATION_DISTANCE = 30 (squared: 900). -/
def nearestClose (r : SwarmRobot) : Bool :=
  match r.neighbors with
  | n :: _ => decide (n.distSq < 900)
  | [] => false

/-- SwarmRobot.basic_stop_behavior. -/
def basic_stop_behavior (rnd : WRand) (r : SwarmRobot) : SwarmRobot :=
  if nearestClose r then { r with state := .stopped, speed := 0 }
  else { r with state := .moving, speed := r.max_speed, angle := r.angle + rnd.jitter }

/-- SwarmRobot.timed_stop_behavior.  The trailing movement block of the
source adds jitter and restores max speed whenever the state after the
transition machine is moving. -/
def timed_stop_behavior (tr : Trig) (rnd : WRand) (r : SwarmRobot) : SwarmRobot :=
  let r1 :=
    match r.state with
    | .moving =>
        if nearestClose r then { r with state := .stopped, wait_timer := WAIT_TIME, speed := 0 }
        else r
    | .stopped =>
        let t := r.wait_timer - 1
        if t ≤ 0 then
          let cluster_count := (r.neighbors.filter (fun n => n.distSq < 900)).length
          if cluster_count < 3 ∨ rnd.coin < 0.1 then
            let r2 := { r with state := .leaving, wait_timer := 30 }
            match r.neighbors with
            | [] => r2
            | _ =>
                let avg_angle :=
                  pysum (r.neighbors.map (fun n => n.angle)) / (r.neighbors.length : ℚ)
                { r2 with angle := avg_angle + tr.pi }
          else { r with wait_timer := WAIT_TIME }
        else { r with wait_timer := t }
    | .leaving =>
        let r2 := { r with speed := r.max_speed * 1.5, wait_timer := r.wait_timer - 1 }
        if r2.wait_timer ≤ 0 then { r2 with state := .moving, speed := r2.max_speed }
        else r2
  if r1.state = .moving then { r1 with angle := r1.angle + rnd.jitter, speed := r1.max_speed }
  else r1

/-- SwarmRobot.aggregation_behavior.  The lookup argument resolves a
neighbor id to the live coordinates of that robot object: the stopped
branch of the source reads n.robot.x and n.robot.y directly from the
shared roster objects when computing the cluster centroid.  Distances are
compared squared: 900 embeds distance below 30 and 400 distance below
20. -/
def aggregation_behavior (tr : Trig) (rnd : WRand) (lookup : ℕ → ℚ × ℚ) (r : SwarmRobot) :
    SwarmRobot :=
  let close := r.neighbors.filter (fun n => n.distSq < 900)
  let r0 := { r with cluster_size := close.length }
  match r0.state with
  | .moving =>
      match close with
      | c :: _ =>
          if r0.cluster_size < 5 then
            let r1 := { r0 with angle := c.angle, speed := r0.max_speed }
            if c.distSq < 400 then { r1 with state := .stopped, wait_timer := WAIT_TIME * 2 }
            else r1
          else { r0 with speed := r0.max_speed * 0.5 }
      | [] =>
          let center_angle := tr.atan2 (SCREEN_HEIGHT / 2 - r0.y) (SCREEN_WIDTH / 2 - r0.x)
          { r0 with angle := 0.9 * r0.angle + 0.1 * center_angle + rnd.jitter,
                    speed := r0.max_speed }
  | .stopped =>
      let r1 := { r0 with wait_timer := r0.wait_timer - 1, speed := 0 }
      let leave_prob : ℚ :=
        if 10 < r1.cluster_size then 0.001 else 0.01 / ((r1.cluster_size : ℚ) + 1)
      if r1.wait_timer ≤ (0 : ℤ) ∨ rnd.coin < leave_prob then
        let r2 := { r1 with state := .leaving, wait_timer := 20 }
        match close with
        | [] => r2
        | _ =>
            let avg_x := pysum (close.map (fun n => (lookup n.nid).1)) / (close.length : ℚ)
            let avg_y := pysum (close.map (fun n => (lookup n.nid).2)) / (close.length : ℚ)
            { r2 with angle := tr.atan2 (r2.y - avg_y) (r2.x - avg_x) }
      else r1
  | .leaving =>
      let r1 := { r0 with speed := r0.max_speed * 1.2, wait_timer := r0.wait_timer - 1 }
      if 8 < r1.cluster_size ∧ rnd.coin2 < 0.3 then { r1 with state := .moving }
      else if r1.wait_timer ≤ 0 then { r1 with state := .moving }
      else r1

/-- SwarmRobot.update_position: a robot with positive speed advances along
its heading and reflects off the arena walls (heading mirrored and the
position clamped back inside); a robot without positive speed is left
untouched. -/
def update_position (tr : Trig) (r : SwarmRobot) : SwarmRobot :=
  if 0 < r.speed then
    let r1 := { r with x := r.x + r.speed * tr.cos r.angle, y := r.y + r.speed * tr.sin r.angle }
    let r2 :=
      if r1.x < ROBOT_SIZE ∨ SCREEN_WIDTH - ROBOT_SIZE < r1.x then
        { r1 with angle := tr.pi - r1.angle, x := clampQ ROBOT_SIZE (SCREEN_WIDTH - ROBOT_SIZE) r1.x }
      else r1
    let r3 :=
      if r2.y < ROBOT_SIZE ∨ SCREEN_HEIGHT - ROBOT_SIZE < r2.y then
        { r2 with angle := -r2.angle, y := clampQ ROBOT_SIZE (SCREEN_HEIGHT - ROBOT_SIZE) r2.y }
      else r2
    r3
  else r

/-- Closed enumeration for the externally selected swarm mode. -/
inductive WMode
  | basic
  | timed
  | aggregation
deriving DecidableEq

/-- One decide-and-move step of the per-robot loop of
SwarmSimulation.update: run the selected behavior, then update_position. -/
def stepRobot (tr : Trig) (mode : WMode) (rnd : WRand) (lookup : ℕ → ℚ × ℚ)
    (r : SwarmRobot) : SwarmRobot :=
  update_position tr
    (match mode with
     | .basic => basic_stop_behavior rnd r
     | .timed => timed_stop_behavior tr rnd r
     | .aggregation => aggregation_behavior tr rnd lookup r)

/-- Live coordinates of the roster robot with a given id, the embedding of
dereferencing a stored robot object. -/
def lookupPos (roster : List SwarmRobot) (i : ℕ) : ℚ × ℚ :=
  match roster.find? (fun r => r.id == i) with
  | some r => (r.x, r.y)
  | none => (0, 0)

/-- Sense phase of SwarmSimulation.update: every robot recomputes its
neighbor list from the still unmoved roster. -/
def senseAll (tr : Trig) (roster : List SwarmRobot) : List SwarmRobot :=
  roster.map (sense_neighbors tr roster)

/-- Sequential decide phase of SwarmSimulation.update: robots are stepped
in roster order and mutated in place, so the live lookup for a robot sees
the already stepped prefix together with the still pending suffix. -/
def decideSeq (step : (ℕ → ℚ × ℚ) → SwarmRobot → SwarmRobot) :
    List SwarmRobot → List SwarmRobot → List SwarmRobot
  | done, [] => done
  | done, r :: rest =>
      decideSeq step (done ++ [step (lookupPos (done ++ r :: rest)) r]) rest

/-- SwarmSimulation.update as written: sense all robots, then the
sequential in-place decide-and-move loop.  The per-robot random draws are
injected as a function of the stable robot id.  The find_clusters call
that ends the source tick writes only the statistics list of the
simulation object and never a robot, so it does not appear here. -/
def updateSeq (tr : Trig) (mode : WMode) (rands : ℕ → WRand) (roster : List SwarmRobot) :
    List SwarmRobot :=
  decideSeq (fun lk r => stepRobot tr mode (rands r.id) lk r) [] (senseAll tr roster)

/-- Modelled from the spec: the reference tick that passes a frozen
snapshot of the sensed roster (prior positions and readings) into every
robot decision, so that no step can observe another robot moved in the
same tick. -/
def updateSnap (tr : Trig) (mode : WMode) (rands : ℕ → WRand) (roster : List SwarmRobot) :
    List SwarmRobot :=
  let s := senseAll tr roster
  s.map (fun r => stepRobot tr mode (rands r.id) (lookupPos s) r)

/-- Observable projection named by claim C1: positions, headings, speeds
and mode tags of a roster. -/
def obs (l : List SwarmRobot) : List (ℚ × ℚ × ℚ × ℚ × AState) :=
  l.map (fun r => (r.x, r.y, r.angle, r.speed, r.state))

/-- Identity list of a roster or cluster. -/
def idsOf (l : List SwarmRobot) : List ℕ := l.map (fun r => r.id)

/-- Resolution of a stored neighbor entry back to the roster robot it
refers to (the source pushes the stored object itself onto the stack). -/
def resolveNbr (roster : List SwarmRobot) (n : Nbr) : List SwarmRobot :=
  match roster.find? (fun r => r.id == n.nid) with
  | some r => [r]
  | none => []

/-- Robots pushed onto the traversal stack when the current robot is
freshly visited: its stored neighbors that are not yet visited and closer
than AGGREGATION_DISTANCE.  The source appends them in list order to the
end of a Python stack popped from the end; the embedding keeps the stack
top at the head, so the pushed block is reversed. -/
def pushNbrs (roster : List SwarmRobot) (vis : Finset ℕ) (cur : SwarmRobot) :
    List SwarmRobot :=
  ((cur.neighbors.filter
      (fun n => decide (n.nid ∉ vis) && decide (n.distSq < 900))).flatMap
    (resolveNbr roster)).reverse

/-- Inner while loop of SwarmSimulation.find_clusters.  The structurally
decreasing fuel argument is given a sufficient bound by find_clusters
below; running out of fuel returns the accumulators unchanged. -/
def clusterLoop (roster : List SwarmRobot) :
    ℕ → List SwarmRobot → Finset ℕ → List SwarmRobot → Finset ℕ × List SwarmRobot
  | 0, _, vis, cl => (vis, cl)
  | _ + 1, [], vis, cl => (vis, cl)
  | fuel + 1, cur :: stk, vis, cl =>
      if cur.id ∈ vis then clusterLoop roster fuel stk vis cl
      else
        clusterLoop roster fuel (pushNbrs roster (insert cur.id vis) cur ++ stk)
          (insert cur.id vis) (cl ++ [cur])

/-- Fuel bound for clusterLoop: strictly more than the potential of any
reachable loop state (see loopPotential and the lemmas about it). -/
def clusterFuel (roster : List SwarmRobot) : ℕ :=
  (roster.map (fun r => r.neighbors.length + 2)).sum + 1

/-- Outer loop of SwarmSimulation.find_clusters over the roster: start a
traversal from every not yet visited robot and record the resulting
component when it has more than one member. -/
def clustersGo (roster : List SwarmRobot) :
    List SwarmRobot → Finset ℕ → List (List SwarmRobot) → List (List SwarmRobot)
  | [], _, acc => acc
  | r :: rest, vis, acc =>
      if r.id ∈ vis then clustersGo roster rest vis acc
      else
        let p := clusterLoop roster (clusterFuel roster) [r] vis []
        clustersGo roster rest p.1 (if 1 < p.2.length then acc ++ [p.2] else acc)

/-- SwarmSimulation.find_clusters. -/
def find_clusters (roster : List SwarmRobot) : List (List SwarmRobot) :=
  clustersGo roster roster ∅ []

/-- Proximity relation on agent identities used by the cluster analysis:
two distinct roster ids whose robots are closer than
AGGREGATION_DISTANCE. -/
def adjB (roster : List SwarmRobot) (i j : ℕ) : Bool :=
  !(i == j) &&
    (match roster.find? (fun r => r.id == i), roster.find? (fun r => r.id == j) with
     | some a, some b => decide (posDistSq a b < 900)
     | _, _ => false)

/-- Propositional form of the proximity relation. -/
def adjP (roster : List SwarmRobot) (i j : ℕ) : Prop := adjB roster i j = true

instance (roster : List SwarmRobot) (i j : ℕ) : Decidable (adjP roster i j) := by
  unfold adjP; infer_instance

/-- Reachability through the proximity relation: the transitive closure
that the naive reference computes. -/
def reach (roster : List SwarmRobot) (i j : ℕ) : Prop :=
  Relation.ReflTransGen (adjP roster) i j

/-- Finset of all roster ids. -/
def allIds (roster : List SwarmRobot) : Finset ℕ := (idsOf roster).toFinset

/-- Modelled from the spec: one expansion step of the naive all-pairs
transitive-closure reference, adding every id adjacent to the set. -/
def expand (roster : List SwarmRobot) (s : Finset ℕ) : Finset ℕ :=
  s ∪ (allIds roster).filter (fun j => ∃ i ∈ s, adjP roster i j)

/-- Modelled from the spec: the naive connected component of an id,
obtained by expanding until saturation (a number of steps no smaller than
the roster size is always saturated). -/
def naiveComponent (roster : List SwarmRobot) (i : ℕ) : Finset ℕ :=
  (expand roster)^[(allIds roster).card] {i}

/-- Modelled from the spec: the naive reference partition, every component
with more than one member, as a set of identity sets. -/
def naiveClusters (roster : List SwarmRobot) : Finset (Finset ℕ) :=
  ((allIds roster).image (fun i => naiveComponent roster i)).filter (fun s => 1 < s.card)

/-- Identity sets reported by the traversal-based detector. -/
def clusterIdSets (roster : List SwarmRobot) : Finset (Finset ℕ) :=
  ((find_clusters roster).map (fun c => (idsOf c).toFinset)).toFinset

/-- Consistency of stored neighbor lists with the position snapshot: what
the sense phase establishes for every roster robot. -/
def Consistent (tr : Trig) (roster : List SwarmRobot) : Prop :=
  ∀ r ∈ roster, r.neighbors = nbrListOf tr roster r

instance (tr : Trig) (roster : List SwarmRobot) : Decidable (Consistent tr roster) := by
  unfold Consistent; infer_instance

/-- Termination potential of the traversal loop: the fuel chosen by
find_clusters always dominates it. -/
def loopPotential (roster stack : List SwarmRobot) (vis : Finset ℕ) : ℕ :=
  stack.length +
    ((roster.filter (fun r => decide (r.id ∉ vis))).map (fun r => r.neighbors.length + 2)).sum

/-- Loop invariant of the traversal: every proximity edge out of a
visited id leads to a visited id or to a stacked robot. -/
def LoopInv (roster stack : List SwarmRobot) (vis : Finset ℕ) : Prop :=
  ∀ i ∈ vis, ∀ j, adjP roster i j → j ∈ vis ∨ ∃ s ∈ stack, s.id = j

/-- Concrete trig instance for the counterexample of claim C1: constant
cos and sin keep the arithmetic small, and atan2 returns its second
argument, so two calls of atan2 on different x arguments are told apart
exactly as the real atan2 tells apart bearings toward distinct points. -/
def ctrig1 : Trig := { cos := fun _ => 1, sin := fun _ => 0, atan2 := fun _ x => x, pi := 3 }

/-- Per-robot random draws for the counterexample of claim C1; no branch
of the run depends on them. -/
def crands : ℕ → WRand := fun _ => ⟨0, 1, 1⟩

/-- Roster for the counterexample of claim C1.  Robot 0 is moving next to
the stopped robot 1 whose stop timer is about to expire, and robot 2 sits
at (100, 90); in aggregation mode robot 0 steps toward its nearest
neighbor first, and robot 1 then computes its departure centroid from the
already moved position of robot 0. -/
def rosterA : List SwarmRobot :=
  [⟨100, 100, 0, 0, 2, 2, .moving, 0, [], 0, 0.01⟩,
   ⟨110, 100, 1, 0, 0, 2, .stopped, 1, [], 0, 0.01⟩,
   ⟨100, 90, 2, 0, 2, 2, .moving, 0, [], 0, 0.01⟩]

/-- Positions for the five-close-plus-one-far scenario of claim C2. -/
def rosterB0 : List SwarmRobot :=
  [⟨100, 100, 0, 0, 1.5, 2, .moving, 0, [], 0, 0.01⟩,
   ⟨110, 100, 1, 0, 1.5, 2, .moving, 0, [], 0, 0.01⟩,
   ⟨100, 110, 2, 0, 1.5, 2, .moving, 0, [], 0, 0.01⟩,
   ⟨110, 110, 3, 0, 1.5, 2, .moving, 0, [], 0, 0.01⟩,
   ⟨105, 105, 4, 0, 1.5, 2, .moving, 0, [], 0, 0.01⟩,
   ⟨500, 500, 5, 0, 1.5, 2, .moving, 0, [], 0, 0.01⟩]

/-- Sensed roster of the claim C2 scenario: the five mutually close robots
0 to 4 and the far robot 5, with neighbor lists settled by the sense
phase. -/
def rosterB : List SwarmRobot := senseAll ctrig1 rosterB0

end Swarm

lemma le_clampQ (lo hi x : ℚ) : lo ≤ clampQ lo hi x := le_max_left _ _

lemma clampQ_le {lo hi : ℚ} (x : ℚ) (h : lo ≤ hi) : clampQ lo hi x ≤ hi :=
  max_le h (min_le_left _ _)

/-- C10: a swarm agent whose speed is 0 is left exactly unchanged by the
shared movement step update_position: no displacement, no wall bounce and
no re-clamping happen to a non-moving agent. -/
theorem c10_zero_speed_unchanged (tr : Trig) (r : Swarm.SwarmRobot) (h : r.speed = 0) :
    Swarm.update_position tr r = r := by
  unfold Swarm.update_position
  rw [h]
  simp

/-- Witness for C10 at a concrete stopped robot. -/
theorem c10_zero_speed_unchanged_witness :
    (⟨5, 6, 0, 1, 0, 2, .stopped, 7, [], 0, 0.01⟩ : Swarm.SwarmRobot).speed = 0 ∧
      Swarm.update_position flatTrig ⟨5, 6, 0, 1, 0, 2, .stopped, 7, [], 0, 0.01⟩ =
        ⟨5, 6, 0, 1, 0, 2, .stopped, 7, [], 0, 0.01⟩ :=
  ⟨rfl, c10_zero_speed_unchanged flatTrig _ rfl⟩

/-- C9: a swarm agent with an empty neighbor list never reaches the
average-bearing or centroid computation: in the timed-stop and
aggregation policies the turn-away assignment is skipped (the heading is
unchanged) while the stopped-to-leaving transition still executes with
its timer reset, and in the basic policy the agent takes the moving
branch. -/
theorem c9_empty_neighbor_guard :
    (∀ (tr : Trig) (rnd : Swarm.WRand) (r : Swarm.SwarmRobot),
        r.neighbors = [] → r.state = .stopped → r.wait_timer ≤ 1 →
        (Swarm.timed_stop_behavior tr rnd r).angle = r.angle ∧
        (Swarm.timed_stop_behavior tr rnd r).state = .leaving ∧
        (Swarm.timed_stop_behavior tr rnd r).wait_timer = 30) ∧
    (∀ (tr : Trig) (rnd : Swarm.WRand) (lookup : ℕ → ℚ × ℚ) (r : Swarm.SwarmRobot),
        r.neighbors = [] → r.state = .stopped → r.wait_timer ≤ 1 →
        (Swarm.aggregation_behavior tr rnd lookup r).angle = r.angle ∧
        (Swarm.aggregation_behavior tr rnd lookup r).state = .leaving ∧
        (Swarm.aggregation_behavior tr rnd lookup r).wait_timer = 20) ∧
    (∀ (rnd : Swarm.WRand) (r : Swarm.SwarmRobot), r.neighbors = [] →
        (Swarm.basic_stop_behavior rnd r).state = .moving ∧
        (Swarm.basic_stop_behavior rnd r).angle = r.angle + rnd.jitter) := by
  refine ⟨?_, ?_, ?_⟩
  · intro tr rnd r hn hs ht
    obtain ⟨x, y, id, ang, sp, ms, st, wt, nb, cs, lp⟩ := r
    simp only at hn hs ht
    subst hn hs
    have h1 : wt - 1 ≤ 0 := by omega
    simp [Swarm.timed_stop_behavior, h1]
  · intro tr rnd lookup r hn hs ht
    obtain ⟨x, y, id, ang, sp, ms, st, wt, nb, cs, lp⟩ := r
    simp only at hn hs ht
    subst hn hs
    have h1 : wt - 1 ≤ 0 := by omega
    simp [Swarm.aggregation_behavior, h1]
  · intro rnd r hn
    obtain ⟨x, y, id, ang, sp, ms, st, wt, nb, cs, lp⟩ := r
    simp only at hn
    subst hn
    simp [Swarm.basic_stop_behavior, Swarm.nearestClose]

/-- Witness for C9 at a concrete isolated stopped robot. -/
theorem c9_empty_neighbor_guard_witness :
    ((⟨5, 6, 3, 2, 0, 2, .stopped, 1, [], 0, 0.01⟩ : Swarm.SwarmRobot).neighbors = [] ∧
        (⟨5, 6, 3, 2, 0, 2, .stopped, 1, [], 0, 0.01⟩ : Swarm.SwarmRobot).state = .stopped ∧
        (⟨5, 6, 3, 2, 0, 2, .stopped, 1, [], 0, 0.01⟩ : Swarm.SwarmRobot).wait_timer ≤ 1) ∧
      (Swarm.timed_stop_behavior flatTrig ⟨0, 0, 0⟩ ⟨5, 6, 3, 2, 0, 2, .stopped, 1, [], 0, 0.01⟩).angle =
          (⟨5, 6, 3, 2, 0, 2, .stopped, 1, [], 0, 0.01⟩ : Swarm.SwarmRobot).angle ∧
        (Swarm.timed_stop_behavior flatTrig ⟨0, 0, 0⟩ ⟨5, 6, 3, 2, 0, 2, .stopped, 1, [], 0, 0.01⟩).state = .leaving ∧
        (Swarm.timed_stop_behavior flatTrig ⟨0, 0, 0⟩ ⟨5, 6, 3, 2, 0, 2, .stopped, 1, [], 0, 0.01⟩).wait_timer = 30 :=
  ⟨⟨rfl, rfl, by norm_num⟩,
    c9_empty_neighbor_guard.1 flatTrig ⟨0, 0, 0⟩ _ rfl rfl (by norm_num)⟩

/-- C8 counterexample: two robots identical except for their trails (empty
versus 100 points) get different headings from one vacuum-cleaner tick,
because the spiral increment grows with the trail length. -/
theorem c8_trail_counterexample :
    Single.robotT0.x = Single.robotT1.x ∧ Single.robotT0.y = Single.robotT1.y ∧
      Single.robotT0.angle = Single.robotT1.angle ∧
      Single.robotT0.speed = Single.robotT1.speed ∧
      Single.robotT0.sensor_readings = Single.robotT1.sensor_readings ∧
      (Single.vacuum_cleaner flatTrig ⟨1, 0⟩ Single.robotT0).angle ≠
        (Single.vacuum_cleaner flatTrig ⟨1, 0⟩ Single.robotT1).angle := by
  refine ⟨rfl, rfl, rfl, rfl, rfl, ?_⟩
  with_unfolding_all decide

/-- C8 amended: the contents of the trail have no effect on the decision,
and for agents with trails of equal length the whole decision and motion
agree; the trail length, however, does enter the spiral increment (see
the counterexample), so only length-preserving trail changes are
unobservable. -/
theorem c8_trail_contents_unobservable (tr : Trig) (rnd : Single.VRand)
    (r1 r2 : Single.Robot) (hx : r1.x = r2.x) (hy : r1.y = r2.y) (ha : r1.angle = r2.angle)
    (hs : r1.speed = r2.speed) (hr : r1.sensor_readings = r2.sensor_readings)
    (ht : r1.trail.length = r2.trail.length) :
    (Single.vacuum_cleaner tr rnd r1).angle = (Single.vacuum_cleaner tr rnd r2).angle ∧
      (Single.vacuum_cleaner tr rnd r1).x = (Single.vacuum_cleaner tr rnd r2).x ∧
      (Single.vacuum_cleaner tr rnd r1).y = (Single.vacuum_cleaner tr rnd r2).y := by
  obtain ⟨x1, y1, a1, s1, rd1, t1, w1, d1⟩ := r1
  obtain ⟨x2, y2, a2, s2, rd2, t2, w2, d2⟩ := r2
  simp only at hx hy ha hs hr ht
  subst hx hy ha hs hr
  have hlen : (t1 ++ [(pyInt x1, pyInt y1)]).length = (t2 ++ [(pyInt x1, pyInt y1)]).length := by
    simp [ht]
  simp only [Single.vacuum_cleaner, hlen]
  have hlen2 :
      (if 500 < (t2 ++ [(pyInt x1, pyInt y1)]).length then
          (t1 ++ [(pyInt x1, pyInt y1)]).drop 1
        else t1 ++ [(pyInt x1, pyInt y1)]).length =
      (if 500 < (t2 ++ [(pyInt x1, pyInt y1)]).length then
          (t2 ++ [(pyInt x1, pyInt y1)]).drop 1
        else t2 ++ [(pyInt x1, pyInt y1)]).length := by
    split
    · simp [hlen]
    · exact hlen
  rw [hlen2]
  split
  · exact ⟨rfl, rfl, rfl⟩
  · split
    · exact ⟨rfl, rfl, rfl⟩
    · exact ⟨rfl, rfl, rfl⟩

/-- Witness for C8 amended at two concrete robots with equal trail
lengths but different trail contents. -/
theorem c8_trail_contents_unobservable_witness :
    ((⟨1, 2, 0, 1, [100], [(0, 0)], .searching, 40⟩ : Single.Robot).trail.length =
        (⟨1, 2, 0, 1, [100], [(7, 9)], .searching, 40⟩ : Single.Robot).trail.length) ∧
      (Single.vacuum_cleaner flatTrig ⟨1, 0⟩ ⟨1, 2, 0, 1, [100], [(0, 0)], .searching, 40⟩).angle =
        (Single.vacuum_cleaner flatTrig ⟨1, 0⟩ ⟨1, 2, 0, 1, [100], [(7, 9)], .searching, 40⟩).angle :=
  ⟨rfl,
    (c8_trail_contents_unobservable flatTrig ⟨1, 0⟩ _ _ rfl rfl rfl rfl rfl rfl).1⟩

lemma raycast_bounds (tr : Trig) (walls : List Single.Rect) (x y th : ℚ) :
    0 ≤ Single.raycast tr walls x y th ∧
      Single.raycast tr walls x y th ≤ (Single.SENSOR_RANGE : ℚ) := by
  unfold Single.raycast
  cases hf : (List.range' 1 (Single.SENSOR_RANGE - 1)).find?
      (fun (d : ℕ) =>
        Single.hitsWall walls (x + (d : ℚ) * tr.cos th) (y + (d : ℚ) * tr.sin th)) with
  | none => norm_num
  | some d =>
      have hd := List.mem_range'_1.mp (List.mem_of_find?_eq_some hf)
      have h1 : (1 : ℚ) ≤ (d : ℚ) := by exact_mod_cast hd.1
      have h2 : (d : ℚ) ≤ (Single.SENSOR_RANGE : ℚ) := by
        have hlt : d < Single.SENSOR_RANGE := by
          have := hd.2
          omega
        exact_mod_cast hlt.le
      constructor
      · linarith
      · exact h2

/-- C3: after the sensing step every sensor reading lies in
[0, SENSOR_RANGE], and no policy step modifies the readings, so the bound
is preserved by every subsequent policy step. -/
theorem c3_sensor_reading_bounds :
    (∀ (tr : Trig) (walls : List Single.Rect) (r : Single.Robot),
        ∀ q ∈ (Single.sense_walls tr walls r).sensor_readings,
          0 ≤ q ∧ q ≤ (Single.SENSOR_RANGE : ℚ)) ∧
    (∀ (tr : Trig) (j : ℚ) (r : Single.Robot),
        (Single.collision_avoidance tr j r).sensor_readings = r.sensor_readings) ∧
    (∀ (tr : Trig) (j : ℚ) (r : Single.Robot),
        (Single.wall_follower tr j r).sensor_readings = r.sensor_readings) ∧
    (∀ (tr : Trig) (rnd : Single.VRand) (r : Single.Robot),
        (Single.vacuum_cleaner tr rnd r).sensor_readings = r.sensor_readings) := by
  refine ⟨?_, ?_, ?_, ?_⟩
  · intro tr walls r q hq
    simp only [Single.sense_walls, List.mem_map] at hq
    obtain ⟨off, _, rfl⟩ := hq
    exact raycast_bounds tr walls r.x r.y (r.angle + Single.radians tr off)
  · intro tr j r
    simp only [Single.collision_avoidance]
    split_ifs <;> rfl
  · intro tr j r
    rcases r with ⟨x, y, ang, sp, rd, t, st, wd⟩
    cases st <;> simp only [Single.wall_follower] <;> split_ifs <;> rfl
  · intro tr rnd r
    simp only [Single.vacuum_cleaner]
    split_ifs <;> rfl

/-- Witness for C3 at the concrete scenario robot: its first reading is
15 and the bound holds for it. -/
theorem c3_sensor_reading_bounds_witness :
    ((15 : ℚ) ∈ (Single.sense_walls Single.ctrig6 Single.walls6 Single.robot6).sensor_readings) ∧
      0 ≤ (15 : ℚ) ∧ (15 : ℚ) ≤ (Single.SENSOR_RANGE : ℚ) :=
  ⟨by with_unfolding_all decide,
    c3_sensor_reading_bounds.1 Single.ctrig6 Single.walls6 Single.robot6 15
      (by with_unfolding_all decide)⟩

lemma basic_stop_pos (rnd : Swarm.WRand) (r : Swarm.SwarmRobot) :
    (Swarm.basic_stop_behavior rnd r).x = r.x ∧ (Swarm.basic_stop_behavior rnd r).y = r.y := by
  unfold Swarm.basic_stop_behavior
  split_ifs <;> exact ⟨rfl, rfl⟩

lemma timed_stop_pos (tr : Trig) (rnd : Swarm.WRand) (r : Swarm.SwarmRobot) :
    (Swarm.timed_stop_behavior tr rnd r).x = r.x ∧
      (Swarm.timed_stop_behavior tr rnd r).y = r.y := by
  rcases r with ⟨x, y, id, ang, sp, ms, st, wt, nb, cs, lp⟩
  cases st <;> cases nb <;>
    simp only [Swarm.timed_stop_behavior] <;> split_ifs <;> exact ⟨rfl, rfl⟩

lemma aggregation_pos (tr : Trig) (rnd : Swarm.WRand) (lookup : ℕ → ℚ × ℚ)
    (r : Swarm.SwarmRobot) :
    (Swarm.aggregation_behavior tr rnd lookup r).x = r.x ∧
      (Swarm.aggregation_behavior tr rnd lookup r).y = r.y := by
  rcases r with ⟨x, y, id, ang, sp, ms, st, wt, nb, cs, lp⟩
  cases st <;> simp only [Swarm.aggregation_behavior] <;>
    rcases hcl : List.filter (fun n => decide (n.distSq < 900)) nb with _ | ⟨c, cl⟩ <;>
      simp only [hcl] <;>
        first
          | exact ⟨trivial, trivial⟩
          | exact ⟨rfl, rfl⟩
          | (split_ifs <;> exact ⟨rfl, rfl⟩)

lemma update_position_bounds (tr : Trig) (r : Swarm.SwarmRobot)
    (hx1 : Swarm.ROBOT_SIZE ≤ r.x) (hx2 : r.x ≤ Swarm.SCREEN_WIDTH - Swarm.ROBOT_SIZE)
    (hy1 : Swarm.ROBOT_SIZE ≤ r.y) (hy2 : r.y ≤ Swarm.SCREEN_HEIGHT - Swarm.ROBOT_SIZE) :
    Swarm.ROBOT_SIZE ≤ (Swarm.update_position tr r).x ∧
      (Swarm.update_position tr r).x ≤ Swarm.SCREEN_WIDTH - Swarm.ROBOT_SIZE ∧
      Swarm.ROBOT_SIZE ≤ (Swarm.update_position tr r).y ∧
      (Swarm.update_position tr r).y ≤ Swarm.SCREEN_HEIGHT - Swarm.ROBOT_SIZE := by
  have hlohix : Swarm.ROBOT_SIZE ≤ Swarm.SCREEN_WIDTH - Swarm.ROBOT_SIZE := by
    norm_num [Swarm.ROBOT_SIZE, Swarm.SCREEN_WIDTH]
  have hlohiy : Swarm.ROBOT_SIZE ≤ Swarm.SCREEN_HEIGHT - Swarm.ROBOT_SIZE := by
    norm_num [Swarm.ROBOT_SIZE, Swarm.SCREEN_HEIGHT]
  obtain ⟨x, y, id, ang, sp, ms, st, wt, nb, cs, lp⟩ := r
  simp only at hx1 hx2 hy1 hy2
  unfold Swarm.update_position
  dsimp only
  split_ifs with hsp h1 h2 h3
  all_goals refine ⟨?_, ?_, ?_, ?_⟩
  · exact le_clampQ _ _ _
  · exact clampQ_le _ hlohix
  · exact le_clampQ _ _ _
  · exact clampQ_le _ hlohiy
  · exact le_clampQ _ _ _
  · exact clampQ_le _ hlohix
  · push_neg at h2; exact h2.1
  · push_neg at h2; exact h2.2
  · push_neg at h1; exact h1.1
  · push_neg at h1; exact h1.2
  · exact le_clampQ _ _ _
  · exact clampQ_le _ hlohiy
  · push_neg at h1; exact h1.1
  · push_neg at h1; exact h1.2
  · push_neg at h3; exact h3.1
  · push_neg at h3; exact h3.2
  · exact hx1
  · exact hx2
  · exact hy1
  · exact hy2

/-- C4: after every full tick the position of an agent lies in
[radius, width - radius] x [radius, height - radius].  For the single
robot the clamp of Simulation.update establishes this unconditionally;
for a swarm robot that starts inside the bounds the behavior step keeps
the position fixed and update_position either bounces back inside or
leaves the position untouched. -/
theorem c4_position_bounds :
    (∀ (tr : Trig) (mode : Single.SMode) (rnd : Single.SRand) (walls : List Single.Rect)
        (r : Single.Robot),
        Single.ROBOT_SIZE ≤ (Single.simUpdate tr mode rnd walls r).x ∧
          (Single.simUpdate tr mode rnd walls r).x ≤ Single.SCREEN_WIDTH - Single.ROBOT_SIZE ∧
          Single.ROBOT_SIZE ≤ (Single.simUpdate tr mode rnd walls r).y ∧
          (Single.simUpdate tr mode rnd walls r).y ≤ Single.SCREEN_HEIGHT - Single.ROBOT_SIZE) ∧
    (∀ (tr : Trig) (mode : Swarm.WMode) (rnd : Swarm.WRand) (lookup : ℕ → ℚ × ℚ)
        (r : Swarm.SwarmRobot),
        Swarm.ROBOT_SIZE ≤ r.x → r.x ≤ Swarm.SCREEN_WIDTH - Swarm.ROBOT_SIZE →
        Swarm.ROBOT_SIZE ≤ r.y → r.y ≤ Swarm.SCREEN_HEIGHT - Swarm.ROBOT_SIZE →
        Swarm.ROBOT_SIZE ≤ (Swarm.stepRobot tr mode rnd lookup r).x ∧
          (Swarm.stepRobot tr mode rnd lookup r).x ≤ Swarm.SCREEN_WIDTH - Swarm.ROBOT_SIZE ∧
          Swarm.ROBOT_SIZE ≤ (Swarm.stepRobot tr mode rnd lookup r).y ∧
          (Swarm.stepRobot tr mode rnd lookup r).y ≤
            Swarm.SCREEN_HEIGHT - Swarm.ROBOT_SIZE) := by
  constructor
  · intro tr mode rnd walls r
    have hx : Single.ROBOT_SIZE ≤ Single.SCREEN_WIDTH - Single.ROBOT_SIZE := by
      norm_num [Single.ROBOT_SIZE, Single.SCREEN_WIDTH]
    have hy : Single.ROBOT_SIZE ≤ Single.SCREEN_HEIGHT - Single.ROBOT_SIZE := by
      norm_num [Single.ROBOT_SIZE, Single.SCREEN_HEIGHT]
    exact ⟨le_clampQ _ _ _, clampQ_le _ hx, le_clampQ _ _ _, clampQ_le _ hy⟩
  · intro tr mode rnd lookup r hx1 hx2 hy1 hy2
    cases mode with
    | basic =>
        have h := basic_stop_pos rnd r
        exact update_position_bounds tr _ (h.1 ▸ hx1) (h.1 ▸ hx2) (h.2 ▸ hy1) (h.2 ▸ hy2)
    | timed =>
        have h := timed_stop_pos tr rnd r
        exact update_position_bounds tr _ (h.1 ▸ hx1) (h.1 ▸ hx2) (h.2 ▸ hy1) (h.2 ▸ hy2)
    | aggregation =>
        have h := aggregation_pos tr rnd lookup r
        exact update_position_bounds tr _ (h.1 ▸ hx1) (h.1 ▸ hx2) (h.2 ▸ hy1) (h.2 ▸ hy2)

lemma find?_range'_spec {p : ℕ → Bool} {s n d : ℕ}
    (h : (List.range' s n).find? p = some d) :
    p d = true ∧ s ≤ d ∧ d < s + n ∧ ∀ k, s ≤ k → k < d → p k = false := by
  induction n generalizing s with
  | zero => simp at h
  | succ n ih =>
      rw [List.range'_succ] at h
      rcases hps : p s with _ | _
      · rw [List.find?_cons_of_neg _ (by simp [hps])] at h
        obtain ⟨h1, h2, h3, h4⟩ := ih h
        refine ⟨h1, by omega, by omega, ?_⟩
        intro k hk1 hk2
        rcases Nat.eq_or_lt_of_le hk1 with rfl | hlt
        · exact hps
        · exact h4 k hlt hk2
      · rw [List.find?_cons_of_pos _ hps] at h
        cases h
        exact ⟨hps, le_refl _, by omega, fun k hk1 hk2 => absurd hk1 (by omega)⟩

/-- C5: each ray-cast sensor reading is the smallest unit-step distance,
marching outward up to SENSOR_RANGE, at which the ray point falls inside
some obstacle, and SENSOR_RANGE when no such step exists; the result is a
deterministic function of position, heading and obstacle set (robots
agreeing on those fields sense identically), and sense_walls assigns
exactly that ray cast to each sensor offset. -/
theorem c5_raycast_first_hit :
    (∀ (tr : Trig) (walls : List Single.Rect) (x y th : ℚ),
      (∀ hne : ((Finset.Icc 1 Single.SENSOR_RANGE).filter
            (fun (d : ℕ) =>
              Single.hitsWall walls (x + (d : ℚ) * tr.cos th) (y + (d : ℚ) * tr.sin th) =
                true)).Nonempty,
          Single.raycast tr walls x y th =
            ((((Finset.Icc 1 Single.SENSOR_RANGE).filter
                (fun (d : ℕ) =>
                  Single.hitsWall walls (x + (d : ℚ) * tr.cos th) (y + (d : ℚ) * tr.sin th) =
                    true)).min' hne : ℕ) : ℚ)) ∧
        (((Finset.Icc 1 Single.SENSOR_RANGE).filter
            (fun (d : ℕ) =>
              Single.hitsWall walls (x + (d : ℚ) * tr.cos th) (y + (d : ℚ) * tr.sin th) =
                true)) = ∅ →
          Single.raycast tr walls x y th = (Single.SENSOR_RANGE : ℚ))) ∧
    (∀ (tr : Trig) (walls : List Single.Rect) (r1 r2 : Single.Robot),
      r1.x = r2.x → r1.y = r2.y → r1.angle = r2.angle →
      (Single.sense_walls tr walls r1).sensor_readings =
        (Single.sense_walls tr walls r2).sensor_readings) ∧
    (∀ (tr : Trig) (walls : List Single.Rect) (r : Single.Robot),
      (Single.sense_walls tr walls r).sensor_readings =
        Single.sensor_angles.map
          (fun off => Single.raycast tr walls r.x r.y (r.angle + Single.radians tr off))) := by
  refine ⟨?_, ?_, ?_⟩
  · intro tr walls x y th
    set p : ℕ → Bool := fun d =>
      Single.hitsWall walls (x + (d : ℚ) * tr.cos th) (y + (d : ℚ) * tr.sin th) with hp
    set H : Finset ℕ := (Finset.Icc 1 Single.SENSOR_RANGE).filter (fun d => p d = true) with hH
    have hray : Single.raycast tr walls x y th =
        match (List.range' 1 (Single.SENSOR_RANGE - 1)).find? p with
        | some d => (d : ℚ)
        | none => (Single.SENSOR_RANGE : ℚ) := rfl
    cases hf : (List.range' 1 (Single.SENSOR_RANGE - 1)).find? p with
    | some d =>
        obtain ⟨hpd, hd1, hd2, hleast⟩ := find?_range'_spec hf
        have hdH : d ∈ H := by
          rw [hH]
          refine Finset.mem_filter.mpr ⟨Finset.mem_Icc.mpr ⟨hd1, ?_⟩, hpd⟩
          have : Single.SENSOR_RANGE = 100 := rfl
          omega
        have hne0 : H.Nonempty := ⟨d, hdH⟩
        have hmin : ∀ hne : H.Nonempty, H.min' hne = d := by
          intro hne
          refine le_antisymm (Finset.min'_le H d hdH) (Finset.le_min' H hne d ?_)
          intro e he
          rw [hH, Finset.mem_filter, Finset.mem_Icc] at he
          by_contra hde
          push_neg at hde
          exact absurd he.2 (by rw [hleast e he.1.1 hde]; simp)
        constructor
        · intro hne
          rw [hray, hf, hmin hne]
        · intro hemp
          rw [hemp] at hdH
          exact absurd hdH (Finset.not_mem_empty d)
    | none =>
        have hnoth : ∀ e ∈ H, e = 100 := by
          intro e he
          rw [hH, Finset.mem_filter, Finset.mem_Icc] at he
          by_contra hne100
          have hmem : e ∈ List.range' 1 (Single.SENSOR_RANGE - 1) := by
            rw [List.mem_range'_1]
            have : Single.SENSOR_RANGE = 100 := rfl
            omega
          exact absurd he.2 (List.find?_eq_none.mp hf e hmem)
        constructor
        · intro hne
          have h100 := hnoth (H.min' hne) (Finset.min'_mem H hne)
          rw [hray, hf, h100]
          norm_num [Single.SENSOR_RANGE]
        · intro _
          rw [hray, hf]
  · intro tr walls r1 r2 hx hy ha
    simp only [Single.sense_walls, hx, hy, ha]
  · intro tr walls r
    rfl

/-- Nonemptiness of the concrete hit set of the claim C5 witness. -/
lemma c5_witness_hit_nonempty :
    ((Finset.Icc 1 Single.SENSOR_RANGE).filter
      (fun (d : ℕ) =>
        Single.hitsWall Single.wallsW ((0 : ℚ) + (d : ℚ) * flatTrig.cos 0)
            ((0 : ℚ) + (d : ℚ) * flatTrig.sin 0) = true)).Nonempty := by
  refine ⟨2, Finset.mem_filter.mpr ⟨Finset.mem_Icc.mpr ⟨by norm_num, by norm_num [Single.SENSOR_RANGE]⟩, ?_⟩⟩
  with_unfolding_all decide

/-- Witness for C5: the reading of a concrete ray equals the least hit
distance of its nonempty hit set. -/
theorem c5_raycast_first_hit_witness :
    Single.raycast flatTrig Single.wallsW 0 0 0 =
      ((((Finset.Icc 1 Single.SENSOR_RANGE).filter
          (fun (d : ℕ) =>
            Single.hitsWall Single.wallsW ((0 : ℚ) + (d : ℚ) * flatTrig.cos 0)
                ((0 : ℚ) + (d : ℚ) * flatTrig.sin 0) = true)).min' c5_witness_hit_nonempty : ℕ) :
        ℚ) :=
  (c5_raycast_first_hit.1 flatTrig Single.wallsW 0 0 0).1 c5_witness_hit_nonempty

/-- Witness for C4 at a concrete moving swarm robot inside the arena. -/
theorem c4_position_bounds_witness :
    (Swarm.ROBOT_SIZE ≤ (100 : ℚ) ∧ (100 : ℚ) ≤ Swarm.SCREEN_WIDTH - Swarm.ROBOT_SIZE) ∧
      Swarm.ROBOT_SIZE ≤
          (Swarm.stepRobot flatTrig .basic ⟨0, 1, 1⟩ (fun _ => (0, 0))
              ⟨100, 100, 0, 0, 2, 2, .moving, 0, [], 0, 0.01⟩).x ∧
        (Swarm.stepRobot flatTrig .basic ⟨0, 1, 1⟩ (fun _ => (0, 0))
              ⟨100, 100, 0, 0, 2, 2, .moving, 0, [], 0, 0.01⟩).x ≤
          Swarm.SCREEN_WIDTH - Swarm.ROBOT_SIZE ∧
        Swarm.ROBOT_SIZE ≤
          (Swarm.stepRobot flatTrig .basic ⟨0, 1, 1⟩ (fun _ => (0, 0))
              ⟨100, 100, 0, 0, 2, 2, .moving, 0, [], 0, 0.01⟩).y ∧
        (Swarm.stepRobot flatTrig .basic ⟨0, 1, 1⟩ (fun _ => (0, 0))
              ⟨100, 100, 0, 0, 2, 2, .moving, 0, [], 0, 0.01⟩).y ≤
          Swarm.SCREEN_HEIGHT - Swarm.ROBOT_SIZE :=
  ⟨⟨by norm_num [Swarm.ROBOT_SIZE], by norm_num [Swarm.ROBOT_SIZE, Swarm.SCREEN_WIDTH]⟩,
    c4_position_bounds.2 flatTrig .basic ⟨0, 1, 1⟩ (fun _ => (0, 0))
      ⟨100, 100, 0, 0, 2, 2, .moving, 0, [], 0, 0.01⟩
      (by norm_num [Swarm.ROBOT_SIZE])
      (by norm_num [Swarm.ROBOT_SIZE, Swarm.SCREEN_WIDTH])
      (by norm_num [Swarm.ROBOT_SIZE])
      (by norm_num [Swarm.ROBOT_SIZE, Swarm.SCREEN_HEIGHT])⟩

lemma collision_avoidance_spec (tr : Trig) (j : ℚ) (r : Single.Robot) :
    (Single.collision_avoidance tr j r).angle =
        (if pymin ((r.sensor_readings.drop 2).take 3) < 40 then
          if pysum (r.sensor_readings.take 3) / 3 < pysum (r.sensor_readings.drop 4) / 3 then
            r.angle + 0.1
          else r.angle - 0.1
        else r.angle + j) ∧
      (Single.collision_avoidance tr j r).x =
        r.x + r.speed * tr.cos (Single.collision_avoidance tr j r).angle ∧
      (Single.collision_avoidance tr j r).y =
        r.y + r.speed * tr.sin (Single.collision_avoidance tr j r).angle := by
  unfold Single.collision_avoidance
  dsimp only
  split_ifs <;> exact ⟨rfl, rfl, rfl⟩

lemma raycast6_m45 : Single.raycast Single.ctrig6 Single.walls6 Single.robot6.x
    Single.robot6.y (Single.robot6.angle + Single.radians Single.ctrig6 (-45)) = 15 := by
  with_unfolding_all decide

lemma raycast6_m30 : Single.raycast Single.ctrig6 Single.walls6 Single.robot6.x
    Single.robot6.y (Single.robot6.angle + Single.radians Single.ctrig6 (-30)) = 12 := by
  with_unfolding_all decide

lemma raycast6_m15 : Single.raycast Single.ctrig6 Single.walls6 Single.robot6.x
    Single.robot6.y (Single.robot6.angle + Single.radians Single.ctrig6 (-15)) = 11 := by
  with_unfolding_all decide

lemma raycast6_0 : Single.raycast Single.ctrig6 Single.walls6 Single.robot6.x
    Single.robot6.y (Single.robot6.angle + Single.radians Single.ctrig6 0) = 10 := by
  with_unfolding_all decide

lemma raycast6_15 : Single.raycast Single.ctrig6 Single.walls6 Single.robot6.x
    Single.robot6.y (Single.robot6.angle + Single.radians Single.ctrig6 15) = 11 := by
  with_unfolding_all decide

lemma raycast6_30 : Single.raycast Single.ctrig6 Single.walls6 Single.robot6.x
    Single.robot6.y (Single.robot6.angle + Single.radians Single.ctrig6 30) = 12 := by
  with_unfolding_all decide

lemma raycast6_45 : Single.raycast Single.ctrig6 Single.walls6 Single.robot6.x
    Single.robot6.y (Single.robot6.angle + Single.radians Single.ctrig6 45) = 15 := by
  with_unfolding_all decide

lemma sensed6 : Single.sense_walls Single.ctrig6 Single.walls6 Single.robot6 =
    { Single.robot6 with sensor_readings := [15, 12, 11, 10, 11, 12, 15] } := by
  have hmap : Single.sensor_angles.map
      (fun off => Single.raycast Single.ctrig6 Single.walls6 Single.robot6.x Single.robot6.y
        (Single.robot6.angle + Single.radians Single.ctrig6 off)) =
      [15, 12, 11, 10, 11, 12, 15] := by
    rw [Single.sensor_angles]
    simp only [List.map]
    rw [raycast6_m45, raycast6_m30, raycast6_m15, raycast6_0, raycast6_15, raycast6_30,
      raycast6_45]
  exact congrArg (fun l => { Single.robot6 with sensor_readings := l }) hmap

/-- C6: whenever the minimum front reading is below the threshold 40 the
collision-avoidance heading changes by exactly 0.1 radians, toward the
side with the larger half-average reading (plus 0.1 when the left average
is smaller, minus 0.1 when the right average is smaller); otherwise the
heading receives only the injected jitter; in both cases the agent then
advances by speed along the updated heading in the same tick.  In
particular the concrete scenario agent facing a wall 10 units away senses
a front reading of 10 and turns by minus 0.1 instead of keeping its
heading. -/
theorem c6_collision_avoidance_turn :
    (∀ (tr : Trig) (j : ℚ) (r : Single.Robot),
      (pymin ((r.sensor_readings.drop 2).take 3) < 40 →
        ((Single.collision_avoidance tr j r).angle = r.angle + 0.1 ∨
          (Single.collision_avoidance tr j r).angle = r.angle - 0.1) ∧
        (pysum (r.sensor_readings.take 3) / 3 < pysum (r.sensor_readings.drop 4) / 3 →
          (Single.collision_avoidance tr j r).angle = r.angle + 0.1) ∧
        (¬ pysum (r.sensor_readings.take 3) / 3 < pysum (r.sensor_readings.drop 4) / 3 →
          (Single.collision_avoidance tr j r).angle = r.angle - 0.1)) ∧
      (¬ pymin ((r.sensor_readings.drop 2).take 3) < 40 →
        (Single.collision_avoidance tr j r).angle = r.angle + j) ∧
      (Single.collision_avoidance tr j r).x =
        r.x + r.speed * tr.cos (Single.collision_avoidance tr j r).angle ∧
      (Single.collision_avoidance tr j r).y =
        r.y + r.speed * tr.sin (Single.collision_avoidance tr j r).angle) ∧
    ((Single.sense_walls Single.ctrig6 Single.walls6 Single.robot6).sensor_readings.getD 3 0 =
        10 ∧
      (Single.collision_avoidance Single.ctrig6 0
          (Single.sense_walls Single.ctrig6 Single.walls6 Single.robot6)).angle =
        Single.robot6.angle - 0.1) := by
  constructor
  · intro tr j r
    obtain ⟨hang, hx, hy⟩ := collision_avoidance_spec tr j r
    refine ⟨?_, ?_, hx, hy⟩
    · intro hfront
      rw [hang, if_pos hfront]
      refine ⟨?_, ?_, ?_⟩
      · split_ifs with hlr
        · exact Or.inl rfl
        · exact Or.inr rfl
      · intro hlr
        rw [if_pos hlr]
      · intro hlr
        rw [if_neg hlr]
    · intro hfront
      rw [hang, if_neg hfront]
  · rw [sensed6]
    exact ⟨by with_unfolding_all decide, by with_unfolding_all decide⟩

/-- Witness for C6 at concrete readings with a close front obstacle and
more clearance on the right half. -/
theorem c6_collision_avoidance_turn_witness :
    pymin ((((⟨0, 0, 0, 2, [10, 20, 30, 5, 50, 60, 70], [], .searching, 40⟩ :
          Single.Robot).sensor_readings.drop 2).take 3)) < 40 ∧
      pysum ((⟨0, 0, 0, 2, [10, 20, 30, 5, 50, 60, 70], [], .searching, 40⟩ :
            Single.Robot).sensor_readings.take 3) / 3 <
        pysum ((⟨0, 0, 0, 2, [10, 20, 30, 5, 50, 60, 70], [], .searching, 40⟩ :
            Single.Robot).sensor_readings.drop 4) / 3 ∧
      (Single.collision_avoidance flatTrig 0
          ⟨0, 0, 0, 2, [10, 20, 30, 5, 50, 60, 70], [], .searching, 40⟩).angle =
        (⟨0, 0, 0, 2, [10, 20, 30, 5, 50, 60, 70], [], .searching, 40⟩ :
            Single.Robot).angle + 0.1 :=
  ⟨by with_unfolding_all decide, by with_unfolding_all decide,
    (((c6_collision_avoidance_turn.1 flatTrig 0
          ⟨0, 0, 0, 2, [10, 20, 30, 5, 50, 60, 70], [], .searching, 40⟩).1
        (by with_unfolding_all decide)).2.1 (by with_unfolding_all decide))⟩

lemma wall_follower_searching_stay (tr : Trig) (j : ℚ) (r : Single.Robot)
    (hs : r.wall_follow_state = .searching) (h : ¬ pymin r.sensor_readings < 50) :
    (Single.wall_follower tr j r).wall_follow_state = .searching := by
  rcases r with ⟨x, y, ang, sp, rd, t, st, wd⟩
  simp only at hs
  subst hs
  simp only [Single.wall_follower]
  simp only at h
  rw [if_neg h]

lemma wall_follower_searching_found (tr : Trig) (j : ℚ) (r : Single.Robot)
    (hs : r.wall_follow_state = .searching) (h : pymin r.sensor_readings < 50) :
    (Single.wall_follower tr j r).wall_follow_state = .following := by
  rcases r with ⟨x, y, ang, sp, rd, t, st, wd⟩
  simp only at hs
  subst hs
  simp only [Single.wall_follower]
  simp only at h
  rw [if_pos h]

lemma wall_follower_following_stay (tr : Trig) (j : ℚ) (r : Single.Robot)
    (hs : r.wall_follow_state = .following) :
    (Single.wall_follower tr j r).wall_follow_state = .following := by
  rcases r with ⟨x, y, ang, sp, rd, t, st, wd⟩
  simp only at hs
  subst hs
  simp only [Single.wall_follower]
  split_ifs <;> rfl

/-- C7: along every wall-follower run started in searching, the mode
stays searching on every tick whose readings all sit at or above the
threshold 50, moves to following on the first tick a reading drops below
50, and following is absorbing, so the transition happens exactly once
and the mode never returns to searching without an external reselection. -/
theorem c7_wall_follower_states (tr : Trig) (rs : ℕ → List ℚ) (js : ℕ → ℚ)
    (r0 : Single.Robot) (h0 : r0.wall_follow_state = .searching) :
    (∀ t, (∀ s, s < t → 50 ≤ pymin (rs s)) →
        (Single.wfRun tr rs js r0 t).wall_follow_state = .searching) ∧
    (∀ t, (∀ s, s < t → 50 ≤ pymin (rs s)) → pymin (rs t) < 50 →
        (Single.wfRun tr rs js r0 (t + 1)).wall_follow_state = .following) ∧
    (∀ t u, (Single.wfRun tr rs js r0 t).wall_follow_state = .following → t ≤ u →
        (Single.wfRun tr rs js r0 u).wall_follow_state = .following) := by
  have hstay : ∀ t, (∀ s, s < t → 50 ≤ pymin (rs s)) →
      (Single.wfRun tr rs js r0 t).wall_follow_state = .searching := by
    intro t
    induction t with
    | zero => intro _; exact h0
    | succ t ih =>
        intro hpre
        have hs := ih (fun s hs => hpre s (Nat.lt_succ_of_lt hs))
        have hmin : ¬ pymin (rs t) < 50 := not_lt.mpr (hpre t (Nat.lt_succ_self t))
        exact wall_follower_searching_stay tr (js t) _ hs hmin
  have habs : ∀ t u, (Single.wfRun tr rs js r0 t).wall_follow_state = .following → t ≤ u →
      (Single.wfRun tr rs js r0 u).wall_follow_state = .following := by
    intro t u hf hle
    induction u, hle using Nat.le_induction with
    | base => exact hf
    | succ u hle ih => exact wall_follower_following_stay tr (js u) _ ih
  refine ⟨hstay, ?_, habs⟩
  intro t hpre hlow
  exact wall_follower_searching_found tr (js t) _ (hstay t hpre) hlow

/-- Witness for C7 on a concrete run whose readings drop below the
threshold at tick 2. -/
theorem c7_wall_follower_states_witness :
    Single.robot6.wall_follow_state = .searching ∧
      (Single.wfRun flatTrig
          (fun s => if s < 2 then [100, 100, 100, 100, 100, 100, 100] else [30, 100, 100, 100, 100, 100, 100])
          (fun _ => 0) Single.robot6 3).wall_follow_state = .following :=
  ⟨rfl,
    (c7_wall_follower_states flatTrig
          (fun s => if s < 2 then [100, 100, 100, 100, 100, 100, 100] else [30, 100, 100, 100, 100, 100, 100])
          (fun _ => 0) Single.robot6 rfl).2.1 2
      (by
        intro s hs
        interval_cases s <;> with_unfolding_all decide)
      (by with_unfolding_all decide)⟩

lemma decideSeq_of_lookup_indep (step : (ℕ → ℚ × ℚ) → Swarm.SwarmRobot → Swarm.SwarmRobot)
    (hstep : ∀ lk lk2 r, step lk r = step lk2 r) :
    ∀ (pending done : List Swarm.SwarmRobot),
      Swarm.decideSeq step done pending = done ++ pending.map (step (fun _ => (0, 0))) := by
  intro pending
  induction pending with
  | nil => intro done; simp [Swarm.decideSeq]
  | cons r rest ih =>
      intro done
      rw [Swarm.decideSeq, ih, hstep _ (fun _ => (0, 0)) r]
      simp

/-- C1 amended: the tick of SwarmSimulation.update is two-phase (all
neighbor lists are sensed from the pre-tick positions before any decision
runs), and for the basic-stop and timed-stop policies, whose decisions
read only the frozen sensed data, the sequential in-place decide-and-move
loop coincides with the reference tick that passes a frozen snapshot to
every decision.  The aggregation policy is excluded: its stopped-branch
centroid reads live neighbor positions (see the counterexample). -/
theorem c1_snapshot_equiv_basic_timed (tr : Trig) (rands : ℕ → Swarm.WRand)
    (roster : List Swarm.SwarmRobot) :
    Swarm.updateSeq tr .basic rands roster = Swarm.updateSnap tr .basic rands roster ∧
      Swarm.updateSeq tr .timed rands roster = Swarm.updateSnap tr .timed rands roster := by
  constructor
  · unfold Swarm.updateSeq Swarm.updateSnap
    rw [decideSeq_of_lookup_indep
      (fun lk r => Swarm.stepRobot tr .basic (rands r.id) lk r) (fun _ _ _ => rfl) _ []]
    simp only [List.nil_append]
    exact List.map_congr_left (fun a _ => rfl)
  · unfold Swarm.updateSeq Swarm.updateSnap
    rw [decideSeq_of_lookup_indep
      (fun lk r => Swarm.stepRobot tr .timed (rands r.id) lk r) (fun _ _ _ => rfl) _ []]
    simp only [List.nil_append]
    exact List.map_congr_left (fun a _ => rfl)

/-- C1 counterexample: in aggregation mode the sequential decide-and-move
loop differs from the frozen-snapshot reference on a concrete roster:
robot 1 leaves its cluster using the centroid of the already moved robot
0, so its departure heading disagrees between the two ticks. -/
theorem c1_snapshot_equiv_counterexample :
    Swarm.obs (Swarm.updateSeq Swarm.ctrig1 .aggregation Swarm.crands Swarm.rosterA) ≠
      Swarm.obs (Swarm.updateSnap Swarm.ctrig1 .aggregation Swarm.crands Swarm.rosterA) := by
  with_unfolding_all decide

namespace Swarm

lemma posDistSq_comm (a b : SwarmRobot) : posDistSq a b = posDistSq b a := by
  unfold posDistSq; ring

lemma mem_insertNbr {n m : Nbr} {l : List Nbr} : m ∈ insertNbr n l ↔ m = n ∨ m ∈ l := by
  induction l with
  | nil => simp [insertNbr]
  | cons a l ih =>
      simp only [insertNbr]
      split_ifs
      · simp
      · simp only [List.mem_cons, ih]
        tauto

lemma mem_sortNbrs {l : List Nbr} {m : Nbr} : m ∈ sortNbrs l ↔ m ∈ l := by
  induction l with
  | nil => simp [sortNbrs]
  | cons a l ih => simp [sortNbrs, mem_insertNbr, ih]

lemma mem_nbrListOf {tr : Trig} {roster : List SwarmRobot} {self : SwarmRobot} {n : Nbr} :
    n ∈ nbrListOf tr roster self ↔
      ∃ rob ∈ roster, rob.id ≠ self.id ∧ posDistSq self rob < 2500 ∧
        n = ⟨rob.id, posDistSq self rob, tr.atan2 (rob.y - self.y) (rob.x - self.x)⟩ := by
  unfold nbrListOf
  rw [mem_sortNbrs]
  simp only [List.mem_filterMap]
  constructor
  · rintro ⟨rob, hrob, hsome⟩
    split_ifs at hsome with h1 h2
    · exact ⟨rob, hrob, h1, h2, (Option.some.injEq _ _).mp hsome |>.symm⟩
  · rintro ⟨rob, hrob, h1, h2, rfl⟩
    refine ⟨rob, hrob, ?_⟩
    split_ifs
    rfl

lemma find?_id_mem {roster : List SwarmRobot} {i : ℕ} {a : SwarmRobot}
    (h : roster.find? (fun r => r.id == i) = some a) : a ∈ roster ∧ a.id = i :=
  ⟨List.mem_of_find?_eq_some h, by simpa using List.find?_some h⟩

lemma ids_nodup_inj {roster : List SwarmRobot} (hids : (idsOf roster).Nodup)
    {a b : SwarmRobot} (ha : a ∈ roster) (hb : b ∈ roster) (hab : a.id = b.id) : a = b :=
  List.inj_on_of_nodup_map hids ha hb hab

lemma find?_id_of_mem {roster : List SwarmRobot} (hids : (idsOf roster).Nodup)
    {a : SwarmRobot} (ha : a ∈ roster) : roster.find? (fun r => r.id == a.id) = some a := by
  cases hf : roster.find? (fun r => r.id == a.id) with
  | none =>
      have := List.find?_eq_none.mp hf a ha
      simp at this
  | some b =>
      obtain ⟨hbmem, hbid⟩ := find?_id_mem hf
      rw [ids_nodup_inj hids hbmem ha hbid]

lemma adjP_iff {roster : List SwarmRobot} (hids : (idsOf roster).Nodup) {i j : ℕ} :
    adjP roster i j ↔
      ∃ a ∈ roster, ∃ b ∈ roster, a.id = i ∧ b.id = j ∧ i ≠ j ∧ posDistSq a b < 900 := by
  unfold adjP adjB
  constructor
  · intro h
    rw [Bool.and_eq_true] at h
    obtain ⟨hne, hm⟩ := h
    cases hfa : roster.find? (fun r => r.id == i) with
    | none => rw [hfa] at hm; cases hfb : roster.find? (fun r => r.id == j) <;>
        rw [hfb] at hm <;> simp at hm
    | some a =>
        cases hfb : roster.find? (fun r => r.id == j) with
        | none => rw [hfa, hfb] at hm; simp at hm
        | some b =>
            rw [hfa, hfb] at hm
            simp only [decide_eq_true_eq] at hm
            obtain ⟨ham, hai⟩ := find?_id_mem hfa
            obtain ⟨hbm, hbj⟩ := find?_id_mem hfb
            refine ⟨a, ham, b, hbm, hai, hbj, ?_, hm⟩
            simpa using hne
  · rintro ⟨a, ha, b, hb, rfl, rfl, hne, hd⟩
    rw [Bool.and_eq_true, find?_id_of_mem hids ha, find?_id_of_mem hids hb]
    exact ⟨by simpa using hne, by simpa using hd⟩

lemma adjP_symm {roster : List SwarmRobot} (hids : (idsOf roster).Nodup) {i j : ℕ}
    (h : adjP roster i j) : adjP roster j i := by
  rw [adjP_iff hids] at h ⊢
  obtain ⟨a, ha, b, hb, hai, hbj, hne, hd⟩ := h
  exact ⟨b, hb, a, ha, hbj, hai, Ne.symm hne, by rw [posDistSq_comm]; exact hd⟩

lemma adjP_mem_ids {roster : List SwarmRobot} {i j : ℕ} (h : adjP roster i j) :
    i ∈ allIds roster ∧ j ∈ allIds roster := by
  unfold adjP adjB at h
  rw [Bool.and_eq_true] at h
  obtain ⟨_, hm⟩ := h
  cases hfa : roster.find? (fun r => r.id == i) with
  | none => rw [hfa] at hm; cases hfb : roster.find? (fun r => r.id == j) <;>
      rw [hfb] at hm <;> simp at hm
  | some a =>
      cases hfb : roster.find? (fun r => r.id == j) with
      | none => rw [hfa, hfb] at hm; simp at hm
      | some b =>
          obtain ⟨ham, hai⟩ := find?_id_mem hfa
          obtain ⟨hbm, hbj⟩ := find?_id_mem hfb
          constructor
          · rw [allIds, List.mem_toFinset, idsOf]
            exact hai ▸ List.mem_map_of_mem _ ham
          · rw [allIds, List.mem_toFinset, idsOf]
            exact hbj ▸ List.mem_map_of_mem _ hbm

lemma consistent_adj_of_nbr {tr : Trig} {roster : List SwarmRobot}
    (hids : (idsOf roster).Nodup) (hcons : Consistent tr roster) {cur : SwarmRobot}
    (hc : cur ∈ roster) {n : Nbr} (hn : n ∈ cur.neighbors) (hd : n.distSq < 900) :
    adjP roster cur.id n.nid := by
  rw [hcons cur hc, mem_nbrListOf] at hn
  obtain ⟨rob, hrob, hne, hdist, rfl⟩ := hn
  rw [adjP_iff hids]
  exact ⟨cur, hc, rob, hrob, rfl, rfl, Ne.symm hne, hd⟩

lemma resolveNbr_length_le (roster : List SwarmRobot) (n : Nbr) :
    (resolveNbr roster n).length ≤ 1 := by
  unfold resolveNbr
  cases roster.find? (fun r => r.id == n.nid) <;> simp

lemma flatMap_resolve_length_le (roster : List SwarmRobot) (l : List Nbr) :
    (l.flatMap (resolveNbr roster)).length ≤ l.length := by
  induction l with
  | nil => simp
  | cons a l ih =>
      rw [List.flatMap_cons, List.length_append, List.length_cons]
      have := resolveNbr_length_le roster a
      omega

lemma pushNbrs_length_le (roster : List SwarmRobot) (vis : Finset ℕ) (cur : SwarmRobot) :
    (pushNbrs roster vis cur).length ≤ cur.neighbors.length := by
  unfold pushNbrs
  rw [List.length_reverse]
  calc ((cur.neighbors.filter
          (fun n => decide (n.nid ∉ vis) && decide (n.distSq < 900))).flatMap
        (resolveNbr roster)).length
      ≤ (cur.neighbors.filter
          (fun n => decide (n.nid ∉ vis) && decide (n.distSq < 900))).length :=
        flatMap_resolve_length_le _ _
    _ ≤ cur.neighbors.length := List.length_filter_le _ _

lemma mem_resolveNbr {roster : List SwarmRobot} {n : Nbr} {s : SwarmRobot}
    (h : s ∈ resolveNbr roster n) : s ∈ roster ∧ s.id = n.nid := by
  unfold resolveNbr at h
  cases hf : roster.find? (fun r => r.id == n.nid) <;> rw [hf] at h
  · simp at h
  · simp at h
    subst h
    exact find?_id_mem hf

lemma mem_pushNbrs {roster : List SwarmRobot} {vis : Finset ℕ} {cur s : SwarmRobot}
    (h : s ∈ pushNbrs roster vis cur) :
    ∃ n ∈ cur.neighbors, n.nid ∉ vis ∧ n.distSq < 900 ∧ s ∈ roster ∧ s.id = n.nid := by
  unfold pushNbrs at h
  rw [List.mem_reverse, List.mem_flatMap] at h
  obtain ⟨n, hn, hs⟩ := h
  rw [List.mem_filter, Bool.and_eq_true, decide_eq_true_eq, decide_eq_true_eq] at hn
  obtain ⟨hsr, hsid⟩ := mem_resolveNbr hs
  exact ⟨n, hn.1, hn.2.1, hn.2.2, hsr, hsid⟩

lemma filter_not_mem_insert (roster : List SwarmRobot) (vis : Finset ℕ) (c : ℕ) :
    roster.filter (fun r => decide (r.id ∉ insert c vis)) =
      (roster.filter (fun r => decide (r.id ∉ vis))).filter (fun r => decide (r.id ≠ c)) := by
  rw [List.filter_filter]
  apply List.filter_congr
  intro a _
  rcases hc : decide (a.id ≠ c) with _ | _ <;> rcases hv : decide (a.id ∉ vis) with _ | _ <;>
    simp_all [Finset.mem_insert]

lemma sum_decrease {roster : List SwarmRobot} {vis : Finset ℕ} {cur : SwarmRobot}
    (hc : cur ∈ roster) (hcv : cur.id ∉ vis) :
    ((roster.filter (fun r => decide (r.id ∉ insert cur.id vis))).map
        (fun r => r.neighbors.length + 2)).sum + (cur.neighbors.length + 2) ≤
      ((roster.filter (fun r => decide (r.id ∉ vis))).map
        (fun r => r.neighbors.length + 2)).sum := by
  rw [filter_not_mem_insert]
  set f : SwarmRobot → ℕ := fun r => r.neighbors.length + 2 with hf
  set l1 := roster.filter (fun r => decide (r.id ∉ vis)) with hl1
  have hperm : List.Perm (l1.filter (fun r => decide (r.id ≠ cur.id)) ++
      l1.filter (fun r => !(decide (r.id ≠ cur.id)))) l1 :=
    List.filter_append_perm _ _
  have hsum : ((l1.filter (fun r => decide (r.id ≠ cur.id))).map f).sum +
      ((l1.filter (fun r => !(decide (r.id ≠ cur.id)))).map f).sum = (l1.map f).sum := by
    rw [← List.sum_append, ← List.map_append]
    exact (hperm.map f).sum_eq
  have hcur : cur ∈ l1.filter (fun r => !(decide (r.id ≠ cur.id))) := by
    rw [List.mem_filter]
    constructor
    · rw [hl1, List.mem_filter]
      exact ⟨hc, by simpa using hcv⟩
    · simp
  have hle : f cur ≤ ((l1.filter (fun r => !(decide (r.id ≠ cur.id)))).map f).sum :=
    List.single_le_sum (fun x _ => Nat.zero_le x) _ (List.mem_map_of_mem f hcur)
  have hfc : f cur = cur.neighbors.length + 2 := rfl
  omega

lemma loopPotential_visited (roster stk : List SwarmRobot) (vis : Finset ℕ)
    (cur : SwarmRobot) :
    loopPotential roster stk vis + 1 = loopPotential roster (cur :: stk) vis := by
  unfold loopPotential
  rw [List.length_cons]
  omega

lemma loopPotential_fresh {roster : List SwarmRobot} (stk : List SwarmRobot)
    {vis : Finset ℕ} {cur : SwarmRobot} (hc : cur ∈ roster) (hcv : cur.id ∉ vis) :
    loopPotential roster (pushNbrs roster (insert cur.id vis) cur ++ stk)
        (insert cur.id vis) + 1 ≤ loopPotential roster (cur :: stk) vis := by
  unfold loopPotential
  rw [List.length_append, List.length_cons]
  have h1 := pushNbrs_length_le roster (insert cur.id vis) cur
  have h2 := sum_decrease hc hcv
  omega

lemma loopPotential_pos (roster : List SwarmRobot) (cur : SwarmRobot)
    (stk : List SwarmRobot) (vis : Finset ℕ) :
    1 ≤ loopPotential roster (cur :: stk) vis := by
  unfold loopPotential
  rw [List.length_cons]
  omega

lemma consistent_nbr_of_adj {tr : Trig} {roster : List SwarmRobot}
    (hids : (idsOf roster).Nodup) (hcons : Consistent tr roster) {cur : SwarmRobot}
    (hc : cur ∈ roster) {j : ℕ} (h : adjP roster cur.id j) :
    ∃ n ∈ cur.neighbors, n.nid = j ∧ n.distSq < 900 := by
  rw [adjP_iff hids] at h
  obtain ⟨a, ha, b, hb, hai, hbj, hne, hd⟩ := h
  have hac : a = cur := ids_nodup_inj hids ha hc hai
  subst hac
  refine ⟨⟨b.id, posDistSq a b, tr.atan2 (b.y - a.y) (b.x - a.x)⟩, ?_, hbj, hd⟩
  rw [hcons a hc, mem_nbrListOf]
  refine ⟨b, hb, ?_, by linarith, rfl⟩
  rw [hbj, hai]
  exact Ne.symm hne

lemma pushNbrs_of_adj {tr : Trig} {roster : List SwarmRobot} (hids : (idsOf roster).Nodup)
    (hcons : Consistent tr roster) {vis : Finset ℕ} {cur : SwarmRobot} (hc : cur ∈ roster)
    {j : ℕ} (hadj : adjP roster cur.id j) (hjv : j ∉ vis) :
    ∃ s ∈ pushNbrs roster vis cur, s.id = j := by
  obtain ⟨n, hn, hnid, hnd⟩ := consistent_nbr_of_adj hids hcons hc hadj
  obtain ⟨a, ha, b, hb, hai, hbj, _, _⟩ := (adjP_iff hids).mp hadj
  have hfind : roster.find? (fun r => r.id == n.nid) = some b := by
    rw [show n.nid = b.id from hnid.trans hbj.symm]
    exact find?_id_of_mem hids hb
  refine ⟨b, ?_, hbj⟩
  unfold pushNbrs
  rw [List.mem_reverse, List.mem_flatMap]
  refine ⟨n, ?_, ?_⟩
  · rw [List.mem_filter, Bool.and_eq_true, decide_eq_true_eq, decide_eq_true_eq]
    exact ⟨hn, hnid ▸ hjv, hnd⟩
  · unfold resolveNbr
    rw [hfind]
    simp

lemma clusterLoop_shape (roster : List SwarmRobot) :
    ∀ (fuel : ℕ) (stack : List SwarmRobot) (vis : Finset ℕ) (cl : List SwarmRobot),
      loopPotential roster stack vis ≤ fuel →
      (∀ s ∈ stack, s ∈ roster) →
      vis ⊆ (clusterLoop roster fuel stack vis cl).1 ∧
      (∀ s ∈ stack, s.id ∈ (clusterLoop roster fuel stack vis cl).1) ∧
      ∃ new, (clusterLoop roster fuel stack vis cl).2 = cl ++ new ∧
        (∀ s ∈ new, s ∈ roster) ∧ (new.map (fun r => r.id)).Nodup ∧
        ∀ j, (j ∈ new.map (fun r => r.id) ↔
          j ∈ (clusterLoop roster fuel stack vis cl).1 ∧ j ∉ vis) := by
  intro fuel
  induction fuel with
  | zero =>
      intro stack vis cl hpot hstk
      have hstack : stack = [] := by
        cases stack with
        | nil => rfl
        | cons a l =>
            have := loopPotential_pos roster a l vis
            omega
      subst hstack
      simp only [clusterLoop]
      refine ⟨Finset.Subset.refl _, by simp, [], by simp, by simp, by simp, ?_⟩
      intro j
      constructor
      · intro h
        simp at h
      · rintro ⟨h1, h2⟩
        exact absurd h1 h2
  | succ fuel ih =>
      intro stack vis cl hpot hstk
      cases stack with
      | nil =>
          simp only [clusterLoop]
          refine ⟨Finset.Subset.refl _, by simp, [], by simp, by simp, by simp, ?_⟩
          intro j
          constructor
          · intro h
            simp at h
          · rintro ⟨h1, h2⟩
            exact absurd h1 h2
      | cons cur stk =>
          simp only [clusterLoop]
          by_cases hv : cur.id ∈ vis
          · rw [if_pos hv]
            have hpot2 : loopPotential roster stk vis ≤ fuel := by
              have := loopPotential_visited roster stk vis cur
              omega
            obtain ⟨ih1, ih2, new, ihcl, ihmem, ihnd, ihiff⟩ :=
              ih stk vis cl hpot2 (fun s hs => hstk s (List.mem_cons_of_mem _ hs))
            refine ⟨ih1, ?_, new, ihcl, ihmem, ihnd, ihiff⟩
            intro s hs
            rcases List.mem_cons.mp hs with rfl | hs2
            · exact ih1 hv
            · exact ih2 s hs2
          · rw [if_neg hv]
            have hc : cur ∈ roster := hstk cur (List.mem_cons_self _ _)
            have hpot2 : loopPotential roster
                (pushNbrs roster (insert cur.id vis) cur ++ stk) (insert cur.id vis) ≤
                fuel := by
              have := loopPotential_fresh stk hc hv
              omega
            have hstk2 : ∀ s ∈ pushNbrs roster (insert cur.id vis) cur ++ stk,
                s ∈ roster := by
              intro s hs
              rcases List.mem_append.mp hs with hs1 | hs2
              · obtain ⟨n, _, _, _, hsr, _⟩ := mem_pushNbrs hs1
                exact hsr
              · exact hstk s (List.mem_cons_of_mem _ hs2)
            obtain ⟨ih1, ih2, new2, ihcl, ihmem, ihnd, ihiff⟩ :=
              ih _ (insert cur.id vis) (cl ++ [cur]) hpot2 hstk2
            refine ⟨(Finset.subset_insert _ _).trans ih1, ?_, cur :: new2,
              by rw [ihcl]; simp, ?_, ?_, ?_⟩
            · intro s hs
              rcases List.mem_cons.mp hs with rfl | hs2
              · exact ih1 (Finset.mem_insert_self _ _)
              · exact ih2 s (List.mem_append.mpr (Or.inr hs2))
            · intro s hs
              rcases List.mem_cons.mp hs with rfl | hs2
              · exact hc
              · exact ihmem s hs2
            · rw [List.map_cons]
              refine List.nodup_cons.mpr ⟨?_, ihnd⟩
              intro hmem
              exact ((ihiff cur.id).mp hmem).2 (Finset.mem_insert_self _ _)
            · intro j
              rw [List.map_cons, List.mem_cons]
              constructor
              · rintro (rfl | hj)
                · exact ⟨ih1 (Finset.mem_insert_self _ _), hv⟩
                · obtain ⟨h1, h2⟩ := (ihiff j).mp hj
                  exact ⟨h1, fun hjv => h2 (Finset.mem_insert_of_mem hjv)⟩
              · rintro ⟨h1, h2⟩
                by_cases hje : j = cur.id
                · exact Or.inl hje
                · refine Or.inr ((ihiff j).mpr ⟨h1, ?_⟩)
                  intro hins
                  rcases Finset.mem_insert.mp hins with h | h
                  · exact hje h
                  · exact h2 h

lemma clusterLoop_sound {tr : Trig} {roster : List SwarmRobot} (hids : (idsOf roster).Nodup)
    (hcons : Consistent tr roster) (P : ℕ → Prop)
    (hP : ∀ i j, P i → adjP roster i j → P j) :
    ∀ (fuel : ℕ) (stack : List SwarmRobot) (vis : Finset ℕ) (cl : List SwarmRobot),
      loopPotential roster stack vis ≤ fuel →
      (∀ s ∈ stack, s ∈ roster) →
      (∀ s ∈ stack, P s.id) →
      ∀ j ∈ (clusterLoop roster fuel stack vis cl).1, j ∈ vis ∨ P j := by
  intro fuel
  induction fuel with
  | zero =>
      intro stack vis cl hpot hstk hstkP j hj
      have hstack : stack = [] := by
        cases stack with
        | nil => rfl
        | cons a l =>
            have := loopPotential_pos roster a l vis
            omega
      subst hstack
      simp only [clusterLoop] at hj
      exact Or.inl hj
  | succ fuel ih =>
      intro stack vis cl hpot hstk hstkP j hj
      cases stack with
      | nil =>
          simp only [clusterLoop] at hj
          exact Or.inl hj
      | cons cur stk =>
          simp only [clusterLoop] at hj
          by_cases hv : cur.id ∈ vis
          · rw [if_pos hv] at hj
            have hpot2 : loopPotential roster stk vis ≤ fuel := by
              have := loopPotential_visited roster stk vis cur
              omega
            exact ih stk vis cl hpot2 (fun s hs => hstk s (List.mem_cons_of_mem _ hs))
              (fun s hs => hstkP s (List.mem_cons_of_mem _ hs)) j hj
          · rw [if_neg hv] at hj
            have hc : cur ∈ roster := hstk cur (List.mem_cons_self _ _)
            have hcurP : P cur.id := hstkP cur (List.mem_cons_self _ _)
            have hpot2 : loopPotential roster
                (pushNbrs roster (insert cur.id vis) cur ++ stk) (insert cur.id vis) ≤
                fuel := by
              have := loopPotential_fresh stk hc hv
              omega
            have hstk2 : ∀ s ∈ pushNbrs roster (insert cur.id vis) cur ++ stk,
                s ∈ roster := by
              intro s hs
              rcases List.mem_append.mp hs with hs1 | hs2
              · obtain ⟨n, _, _, _, hsr, _⟩ := mem_pushNbrs hs1
                exact hsr
              · exact hstk s (List.mem_cons_of_mem _ hs2)
            have hstkP2 : ∀ s ∈ pushNbrs roster (insert cur.id vis) cur ++ stk, P s.id := by
              intro s hs
              rcases List.mem_append.mp hs with hs1 | hs2
              · obtain ⟨n, hn, _, hnd, _, hsid⟩ := mem_pushNbrs hs1
                rw [hsid]
                exact hP cur.id n.nid hcurP (consistent_adj_of_nbr hids hcons hc hn hnd)
              · exact hstkP s (List.mem_cons_of_mem _ hs2)
            rcases ih _ (insert cur.id vis) (cl ++ [cur]) hpot2 hstk2 hstkP2 j hj with
              hmem | hp
            · rcases Finset.mem_insert.mp hmem with rfl | hvin
              · exact Or.inr hcurP
              · exact Or.inl hvin
            · exact Or.inr hp

lemma clusterLoop_closed {tr : Trig} {roster : List SwarmRobot}
    (hids : (idsOf roster).Nodup) (hcons : Consistent tr roster) :
    ∀ (fuel : ℕ) (stack : List SwarmRobot) (vis : Finset ℕ) (cl : List SwarmRobot),
      loopPotential roster stack vis ≤ fuel →
      (∀ s ∈ stack, s ∈ roster) →
      LoopInv roster stack vis →
      ∀ i ∈ (clusterLoop roster fuel stack vis cl).1, ∀ j, adjP roster i j →
        j ∈ (clusterLoop roster fuel stack vis cl).1 := by
  intro fuel
  induction fuel with
  | zero =>
      intro stack vis cl hpot hstk hinv i hi j hadj
      have hstack : stack = [] := by
        cases stack with
        | nil => rfl
        | cons a l =>
            have := loopPotential_pos roster a l vis
            omega
      subst hstack
      simp only [clusterLoop] at hi ⊢
      rcases hinv i hi j hadj with h | ⟨s, hs, _⟩
      · exact h
      · exact absurd hs (List.not_mem_nil s)
  | succ fuel ih =>
      intro stack vis cl hpot hstk hinv i hi j hadj
      cases stack with
      | nil =>
          simp only [clusterLoop] at hi ⊢
          rcases hinv i hi j hadj with h | ⟨s, hs, _⟩
          · exact h
          · exact absurd hs (List.not_mem_nil s)
      | cons cur stk =>
          simp only [clusterLoop] at hi ⊢
          by_cases hv : cur.id ∈ vis
          · rw [if_pos hv] at hi ⊢
            have hpot2 : loopPotential roster stk vis ≤ fuel := by
              have := loopPotential_visited roster stk vis cur
              omega
            have hinv2 : LoopInv roster stk vis := by
              intro a ha b hab
              rcases hinv a ha b hab with h | ⟨s, hs, hsid⟩
              · exact Or.inl h
              · rcases List.mem_cons.mp hs with rfl | hs2
                · exact Or.inl (hsid ▸ hv)
                · exact Or.inr ⟨s, hs2, hsid⟩
            exact ih stk vis cl hpot2 (fun s hs => hstk s (List.mem_cons_of_mem _ hs))
              hinv2 i hi j hadj
          · rw [if_neg hv] at hi ⊢
            have hc : cur ∈ roster := hstk cur (List.mem_cons_self _ _)
            have hpot2 : loopPotential roster
                (pushNbrs roster (insert cur.id vis) cur ++ stk) (insert cur.id vis) ≤
                fuel := by
              have := loopPotential_fresh stk hc hv
              omega
            have hstk2 : ∀ s ∈ pushNbrs roster (insert cur.id vis) cur ++ stk,
                s ∈ roster := by
              intro s hs
              rcases List.mem_append.mp hs with hs1 | hs2
              · obtain ⟨n, _, _, _, hsr, _⟩ := mem_pushNbrs hs1
                exact hsr
              · exact hstk s (List.mem_cons_of_mem _ hs2)
            have hinv2 : LoopInv roster (pushNbrs roster (insert cur.id vis) cur ++ stk)
                (insert cur.id vis) := by
              intro a ha b hab
              rcases Finset.mem_insert.mp ha with rfl | hav
              · by_cases hbv : b ∈ insert cur.id vis
                · exact Or.inl hbv
                · obtain ⟨s, hs, hsid⟩ := pushNbrs_of_adj hids hcons hc hab hbv
                  exact Or.inr ⟨s, List.mem_append.mpr (Or.inl hs), hsid⟩
              · rcases hinv a hav b hab with h | ⟨s, hs, hsid⟩
                · exact Or.inl (Finset.mem_insert_of_mem h)
                · rcases List.mem_cons.mp hs with rfl | hs2
                  · exact Or.inl (hsid ▸ Finset.mem_insert_self _ _)
                  · exact Or.inr ⟨s, List.mem_append.mpr (Or.inr hs2), hsid⟩
            exact ih _ (insert cur.id vis) (cl ++ [cur]) hpot2 hstk2 hinv2 i hi j hadj

lemma reach_symm {roster : List SwarmRobot} (hids : (idsOf roster).Nodup) {i j : ℕ}
    (h : reach roster i j) : reach roster j i :=
  Relation.ReflTransGen.symmetric (fun _ _ hab => adjP_symm hids hab) h

lemma closed_reach {roster : List SwarmRobot} {V : Finset ℕ}
    (hV : ∀ i ∈ V, ∀ j, adjP roster i j → j ∈ V) {i j : ℕ} (hi : i ∈ V)
    (h : reach roster i j) : j ∈ V := by
  induction h with
  | refl => exact hi
  | tail _ hbc ih => exact hV _ ih _ hbc

lemma clusterLoop_component {tr : Trig} {roster : List SwarmRobot}
    (hids : (idsOf roster).Nodup) (hcons : Consistent tr roster) {r : SwarmRobot}
    (hr : r ∈ roster) {vis : Finset ℕ}
    (hvisclosed : ∀ i ∈ vis, ∀ j, adjP roster i j → j ∈ vis) (hrv : r.id ∉ vis) :
    (∀ j, j ∈ (clusterLoop roster (clusterFuel roster) [r] vis []).1 ↔
        (j ∈ vis ∨ reach roster r.id j)) ∧
      (∀ j, j ∈ idsOf (clusterLoop roster (clusterFuel roster) [r] vis []).2 ↔
        reach roster r.id j) ∧
      (idsOf (clusterLoop roster (clusterFuel roster) [r] vis []).2).Nodup ∧
      (∀ s ∈ (clusterLoop roster (clusterFuel roster) [r] vis []).2, s ∈ roster) ∧
      (∀ i ∈ (clusterLoop roster (clusterFuel roster) [r] vis []).1, ∀ j,
        adjP roster i j → j ∈ (clusterLoop roster (clusterFuel roster) [r] vis []).1) := by
  have hfuel : loopPotential roster [r] vis ≤ clusterFuel roster := by
    unfold loopPotential clusterFuel
    have hsub : (((roster.filter (fun rob => decide (rob.id ∉ vis))).map
        (fun rob => rob.neighbors.length + 2))).Sublist
        (roster.map (fun rob => rob.neighbors.length + 2)) :=
      (List.filter_sublist _).map _
    have := hsub.sum_le_sum (by intro x _; exact Nat.zero_le x)
    simp only [List.length_singleton]
    omega
  have hstk : ∀ s ∈ ([r] : List SwarmRobot), s ∈ roster := by
    intro s hs
    rw [List.mem_singleton] at hs
    subst hs
    exact hr
  obtain ⟨hsubvis, hstkids, new, hcl, hmemroster, hnodup, hiff⟩ :=
    clusterLoop_shape roster (clusterFuel roster) [r] vis [] hfuel hstk
  have hsound := clusterLoop_sound hids hcons (reach roster r.id)
    (fun i j hi hadj => hi.tail hadj) (clusterFuel roster) [r] vis [] hfuel hstk
    (by
      intro s hs
      rw [List.mem_singleton] at hs
      subst hs
      exact Relation.ReflTransGen.refl)
  have hclosed := clusterLoop_closed hids hcons (clusterFuel roster) [r] vis [] hfuel hstk
    (fun i hi j hadj => Or.inl (hvisclosed i hi j hadj))
  have hrid : r.id ∈ (clusterLoop roster (clusterFuel roster) [r] vis []).1 :=
    hstkids r (List.mem_singleton_self r)
  have hcomplete : ∀ j, reach roster r.id j →
      j ∈ (clusterLoop roster (clusterFuel roster) [r] vis []).1 :=
    fun _ h => closed_reach hclosed hrid h
  refine ⟨?_, ?_, ?_, ?_, hclosed⟩
  · intro j
    constructor
    · intro hj
      exact hsound j hj
    · rintro (h | h)
      · exact hsubvis h
      · exact hcomplete j h
  · intro j
    have hids2 : idsOf (clusterLoop roster (clusterFuel roster) [r] vis []).2 =
        new.map (fun rob => rob.id) := by
      rw [idsOf, hcl, List.nil_append]
    rw [hids2]
    constructor
    · intro hj
      obtain ⟨h1, h2⟩ := (hiff j).mp hj
      rcases hsound j h1 with h | h
      · exact absurd h h2
      · exact h
    · intro hreach
      refine (hiff j).mpr ⟨hcomplete j hreach, ?_⟩
      intro hjv
      exact hrv (closed_reach hvisclosed hjv (reach_symm hids hreach))
  · rw [idsOf, hcl, List.nil_append]
    exact hnodup
  · intro s hs
    rw [hcl, List.nil_append] at hs
    exact hmemroster s hs

lemma mem_expand {roster : List SwarmRobot} {s : Finset ℕ} {j : ℕ} :
    j ∈ expand roster s ↔ j ∈ s ∨ (j ∈ allIds roster ∧ ∃ i ∈ s, adjP roster i j) := by
  unfold expand
  rw [Finset.mem_union, Finset.mem_filter]

lemma subset_expand (roster : List SwarmRobot) (s : Finset ℕ) : s ⊆ expand roster s :=
  Finset.subset_union_left

lemma subset_expand_iterate (roster : List SwarmRobot) (s : Finset ℕ) :
    ∀ n, s ⊆ (expand roster)^[n] s := by
  intro n
  induction n with
  | zero => exact Finset.Subset.refl s
  | succ n ih =>
      rw [Function.iterate_succ_apply']
      exact ih.trans (subset_expand roster _)

lemma expand_iterate_eq_of_eq {roster : List SwarmRobot} {s : Finset ℕ} {n : ℕ}
    (h : (expand roster)^[n + 1] s = (expand roster)^[n] s) :
    ∀ m, n ≤ m → (expand roster)^[m] s = (expand roster)^[n] s := by
  intro m hm
  induction m, hm using Nat.le_induction with
  | base => rfl
  | succ m hm ih =>
      rw [Function.iterate_succ_apply', ih, ← Function.iterate_succ_apply' (expand roster) n s,
        h]

lemma expand_growth (roster : List SwarmRobot) (s : Finset ℕ) :
    ∀ n, (∃ k < n, (expand roster)^[k + 1] s = (expand roster)^[k] s) ∨
      n + s.card ≤ ((expand roster)^[n] s).card := by
  intro n
  induction n with
  | zero => exact Or.inr (by simp)
  | succ n ih =>
      rcases ih with ⟨k, hk, heq⟩ | hcard
      · exact Or.inl ⟨k, Nat.lt_succ_of_lt hk, heq⟩
      · by_cases heq : (expand roster)^[n + 1] s = (expand roster)^[n] s
        · exact Or.inl ⟨n, Nat.lt_succ_self n, heq⟩
        · refine Or.inr ?_
          have hss : (expand roster)^[n] s ⊂ (expand roster)^[n + 1] s := by
            rw [Function.iterate_succ_apply']
            refine ⟨subset_expand roster _, ?_⟩
            intro hsub
            exact heq (le_antisymm (by rw [Function.iterate_succ_apply']; exact hsub)
              (by rw [Function.iterate_succ_apply']; exact subset_expand roster _))
          have := Finset.card_lt_card hss
          omega

lemma expand_iterate_subset_allIds {roster : List SwarmRobot} {i : ℕ}
    (hi : i ∈ allIds roster) : ∀ n, (expand roster)^[n] {i} ⊆ allIds roster := by
  intro n
  induction n with
  | zero => simpa using hi
  | succ n ih =>
      rw [Function.iterate_succ_apply']
      intro j hj
      rcases mem_expand.mp hj with h | h
      · exact ih h
      · exact h.1

lemma expand_saturates {roster : List SwarmRobot} {i : ℕ} (hi : i ∈ allIds roster) :
    expand roster (naiveComponent roster i) = naiveComponent roster i := by
  unfold naiveComponent
  rcases expand_growth roster {i} (allIds roster).card with ⟨k, hk, heq⟩ | hcard
  · have hstable := expand_iterate_eq_of_eq heq
    have hN := hstable (allIds roster).card hk.le
    rw [hN, ← Function.iterate_succ_apply' (expand roster) k {i}, heq]
  · have hsub := Finset.card_le_card (expand_iterate_subset_allIds hi (allIds roster).card)
    have hone : ({i} : Finset ℕ).card = 1 := rfl
    omega

lemma mem_naiveComponent {roster : List SwarmRobot} {i : ℕ} (hi : i ∈ allIds roster)
    {j : ℕ} : j ∈ naiveComponent roster i ↔ reach roster i j := by
  constructor
  · have hgen : ∀ n, ∀ j, j ∈ (expand roster)^[n] {i} → reach roster i j := by
      intro n
      induction n with
      | zero =>
          intro j hj
          rw [Function.iterate_zero_apply, Finset.mem_singleton] at hj
          subst hj
          exact Relation.ReflTransGen.refl
      | succ n ih =>
          intro j hj
          rw [Function.iterate_succ_apply'] at hj
          rcases mem_expand.mp hj with h | ⟨_, k, hk, hadj⟩
          · exact ih j h
          · exact (ih k hk).tail hadj
    exact hgen _ j
  · intro h
    induction h with
    | refl => exact subset_expand_iterate roster {i} _ (Finset.mem_singleton_self i)
    | tail hab hbc ih =>
        have : _ ∈ expand roster (naiveComponent roster i) :=
          mem_expand.mpr (Or.inr ⟨(adjP_mem_ids hbc).2, _, ih, hbc⟩)
        rwa [expand_saturates hi] at this

lemma mem_clustersGo_of_mem_acc {roster : List SwarmRobot} :
    ∀ (pending : List SwarmRobot) (vis : Finset ℕ) (acc : List (List SwarmRobot))
      (c : List SwarmRobot), c ∈ acc → c ∈ clustersGo roster pending vis acc := by
  intro pending
  induction pending with
  | nil =>
      intro vis acc c hc
      simpa [clustersGo] using hc
  | cons r rest ih =>
      intro vis acc c hc
      simp only [clustersGo]
      split_ifs with hv hlen
      · exact ih _ _ _ hc
      · exact ih _ _ _ (List.mem_append.mpr (Or.inl hc))
      · exact ih _ _ _ hc

lemma clustersGo_sound {tr : Trig} {roster : List SwarmRobot}
    (hids : (idsOf roster).Nodup) (hcons : Consistent tr roster) :
    ∀ (pending : List SwarmRobot) (vis : Finset ℕ) (acc : List (List SwarmRobot)),
      (∀ s ∈ pending, s ∈ roster) →
      (∀ i ∈ vis, ∀ j, adjP roster i j → j ∈ vis) →
      (∀ c ∈ acc, ∃ i ∈ allIds roster, (∀ j, j ∈ idsOf c ↔ reach roster i j) ∧
        (idsOf c).Nodup ∧ 1 < c.length) →
      ∀ c ∈ clustersGo roster pending vis acc,
        ∃ i ∈ allIds roster, (∀ j, j ∈ idsOf c ↔ reach roster i j) ∧
          (idsOf c).Nodup ∧ 1 < c.length := by
  intro pending
  induction pending with
  | nil =>
      intro vis acc hp hv hacc c hc
      simp only [clustersGo] at hc
      exact hacc c hc
  | cons r rest ih =>
      intro vis acc hp hv hacc c hc
      simp only [clustersGo] at hc
      by_cases hrv : r.id ∈ vis
      · rw [if_pos hrv] at hc
        exact ih vis acc (fun s hs => hp s (List.mem_cons_of_mem _ hs)) hv hacc c hc
      · rw [if_neg hrv] at hc
        have hr : r ∈ roster := hp r (List.mem_cons_self _ _)
        obtain ⟨h1, h2, h3, h4, h5⟩ := clusterLoop_component hids hcons hr hv hrv
        refine ih _ _ (fun s hs => hp s (List.mem_cons_of_mem _ hs)) h5 ?_ c hc
        intro c2 hc2
        split_ifs at hc2 with hlen
        · rcases List.mem_append.mp hc2 with h | h
          · exact hacc c2 h
          · rw [List.mem_singleton] at h
            subst h
            refine ⟨r.id, ?_, h2, h3, hlen⟩
            rw [allIds, List.mem_toFinset, idsOf]
            exact List.mem_map_of_mem _ hr
        · exact hacc c2 hc2

lemma clustersGo_complete {tr : Trig} {roster : List SwarmRobot}
    (hids : (idsOf roster).Nodup) (hcons : Consistent tr roster) {i0 : ℕ}
    {K : Finset ℕ} (hK : ∀ j, j ∈ K ↔ reach roster i0 j)
    (hcard : 1 < K.card) :
    ∀ (pending : List SwarmRobot) (vis : Finset ℕ) (acc : List (List SwarmRobot)),
      (∀ s ∈ pending, s ∈ roster) →
      (∀ i ∈ vis, ∀ j, adjP roster i j → j ∈ vis) →
      ((∃ c ∈ acc, ∀ j, j ∈ idsOf c ↔ j ∈ K) ∨
        ((∀ j ∈ K, j ∉ vis) ∧ ∃ s ∈ pending, s.id ∈ K)) →
      ∃ c ∈ clustersGo roster pending vis acc, ∀ j, j ∈ idsOf c ↔ j ∈ K := by
  intro pending
  induction pending with
  | nil =>
      intro vis acc hp hv hinv
      simp only [clustersGo]
      rcases hinv with ⟨c, hc, hck⟩ | ⟨_, s, hs, _⟩
      · exact ⟨c, hc, hck⟩
      · exact absurd hs (List.not_mem_nil s)
  | cons r rest ih =>
      intro vis acc hp hv hinv
      simp only [clustersGo]
      by_cases hrv : r.id ∈ vis
      · rw [if_pos hrv]
        refine ih vis acc (fun s hs => hp s (List.mem_cons_of_mem _ hs)) hv ?_
        rcases hinv with hl | ⟨hdisj, s, hs, hsK⟩
        · exact Or.inl hl
        · refine Or.inr ⟨hdisj, ?_⟩
          rcases List.mem_cons.mp hs with rfl | hs2
          · exact absurd hrv (hdisj _ hsK)
          · exact ⟨s, hs2, hsK⟩
      · rw [if_neg hrv]
        have hr : r ∈ roster := hp r (List.mem_cons_self _ _)
        obtain ⟨h1, h2, h3, h4, h5⟩ := clusterLoop_component hids hcons hr hv hrv
        refine ih _ _ (fun s hs => hp s (List.mem_cons_of_mem _ hs)) h5 ?_
        rcases hinv with ⟨c, hc, hck⟩ | ⟨hdisj, s, hs, hsK⟩
        · refine Or.inl ⟨c, ?_, hck⟩
          split_ifs
          · exact List.mem_append.mpr (Or.inl hc)
          · exact hc
        · by_cases hrK : r.id ∈ K
          · have hKiff : ∀ j,
                j ∈ idsOf (clusterLoop roster (clusterFuel roster) [r] vis []).2 ↔
                  j ∈ K := by
              intro j
              rw [h2 j, hK j]
              constructor
              · intro hrj
                exact ((hK r.id).mp hrK).trans hrj
              · intro h0j
                exact (reach_symm hids ((hK r.id).mp hrK)).trans h0j
            have hlen : 1 < (clusterLoop roster (clusterFuel roster) [r] vis []).2.length := by
              have hlen2 :
                  (idsOf (clusterLoop roster (clusterFuel roster) [r] vis []).2).toFinset.card =
                    (clusterLoop roster (clusterFuel roster) [r] vis []).2.length := by
                rw [List.toFinset_card_of_nodup h3, idsOf, List.length_map]
              have hset :
                  (idsOf (clusterLoop roster (clusterFuel roster) [r] vis []).2).toFinset = K := by
                ext j
                rw [List.mem_toFinset]
                exact hKiff j
              rw [← hlen2, hset]
              exact hcard
            refine Or.inl ⟨(clusterLoop roster (clusterFuel roster) [r] vis []).2, ?_, hKiff⟩
            rw [if_pos hlen]
            exact List.mem_append.mpr (Or.inr (List.mem_singleton_self _))
          · refine Or.inr ⟨?_, ?_⟩
            · intro j hjK hjres
              rcases (h1 j).mp hjres with hjv | hjr
              · exact hdisj j hjK hjv
              · apply hrK
                rw [hK]
                exact ((hK j).mp hjK).trans (reach_symm hids hjr)
            · rcases List.mem_cons.mp hs with rfl | hs2
              · exact absurd hsK hrK
              · exact ⟨s, hs2, hsK⟩

end Swarm

/-- C2: for every roster with distinct identities and neighbor lists
consistent with the position snapshot, the stack-based detector
find_clusters reports, as a set of identity sets, exactly the naive
all-pairs transitive-closure components with more than one member; and on
the concrete snapshot of five mutually close robots plus one far robot it
reports exactly the one cluster of identities 0 to 4, the far robot 5 in
no cluster. -/
theorem c2_clusters_eq_naive :
    (∀ (tr : Trig) (roster : List Swarm.SwarmRobot),
        (Swarm.idsOf roster).Nodup → Swarm.Consistent tr roster →
        Swarm.clusterIdSets roster = Swarm.naiveClusters roster) ∧
      (Swarm.find_clusters Swarm.rosterB).map (fun c => (Swarm.idsOf c).toFinset) =
        [({0, 1, 2, 3, 4} : Finset ℕ)] := by
  constructor
  · intro tr roster hids hcons
    apply Finset.Subset.antisymm
    · intro s hs
      rw [Swarm.clusterIdSets, List.mem_toFinset, List.mem_map] at hs
      obtain ⟨c, hc, rfl⟩ := hs
      obtain ⟨i, hiall, hiff, hnd, hlen⟩ :=
        Swarm.clustersGo_sound hids hcons roster ∅ [] (fun s hs => hs) (by simp) (by simp)
          c hc
      rw [Swarm.naiveClusters, Finset.mem_filter, Finset.mem_image]
      refine ⟨⟨i, hiall, ?_⟩, ?_⟩
      · ext j
        rw [Swarm.mem_naiveComponent hiall, List.mem_toFinset]
        exact (hiff j).symm
      · rw [List.toFinset_card_of_nodup hnd, Swarm.idsOf, List.length_map]
        exact hlen
    · intro s hs
      rw [Swarm.naiveClusters, Finset.mem_filter, Finset.mem_image] at hs
      obtain ⟨⟨i, hiall, rfl⟩, hcard⟩ := hs
      have hex : ∃ w ∈ roster, w.id = i := by
        have := hiall
        rw [Swarm.allIds, List.mem_toFinset, Swarm.idsOf, List.mem_map] at this
        exact this
      obtain ⟨w, hw, hwi⟩ := hex
      obtain ⟨c, hc, hciff⟩ :=
        Swarm.clustersGo_complete hids hcons
          (fun j => Swarm.mem_naiveComponent hiall) hcard roster ∅ [] (fun s hs => hs)
          (by simp)
          (Or.inr ⟨by simp, w, hw, by
            rw [hwi, Swarm.mem_naiveComponent hiall]
            exact Relation.ReflTransGen.refl⟩)
      rw [Swarm.clusterIdSets, List.mem_toFinset, List.mem_map]
      refine ⟨c, hc, ?_⟩
      ext j
      rw [List.mem_toFinset]
      exact hciff j
  · with_unfolding_all decide

/-- Witness for C2: the scenario roster of five close robots plus one far
robot has distinct ids and consistent neighbor lists, and the general
theorem applies to it; the detected identity sets equal the naive
components with more than one member. -/
theorem c2_clusters_eq_naive_witness :
    ((Swarm.idsOf Swarm.rosterB).Nodup ∧ Swarm.Consistent Swarm.ctrig1 Swarm.rosterB) ∧
      Swarm.clusterIdSets Swarm.rosterB = Swarm.naiveClusters Swarm.rosterB :=
  ⟨⟨by with_unfolding_all decide, by with_unfolding_all decide⟩,
    c2_clusters_eq_naive.1 Swarm.ctrig1 Swarm.rosterB (by with_unfolding_all decide)
      (by with_unfolding_all decide)⟩

end SwarmSim
